import Mathlib

/-!
Shallow embedding of `mensa.py` (repository frcl/mensa-ka).

Python dicts are modelled as insertion-ordered association lists, python
exceptions as `Except PyErr`, and the BeautifulSoup document as a tree of
`Node`s; `findAll`/`find` are the usual pre-order descendant searches.
The byte-level fetch (HTTP read, byte-range excision, utf-8 decode) and the
bs4 text-to-tree step are external-library effects; a refresh cycle is
therefore modelled by its HTTP status together with the decoded document
(`Except` for a decode failure), while the control flow of `update` and
`check_for_updates` is translated faithfully.  File persistence
(`write_to_file`, TinyDB) is external I/O and outside the modelled state.
-/

namespace Mensa

/-! ### Python dicts as insertion-ordered association lists -/

/-- `d[k]` as an `Option`: the value at the first matching key. -/
def dictGet? {α β : Type} [DecidableEq α] : List (α × β) → α → Option β
  | [], _ => none
  | (k, v) :: rest, q => if k = q then some v else dictGet? rest q

/-- `d[k] = v`: replace the value at an existing key in place,
or append a new binding (python dicts keep insertion order). -/
def dictInsert {α β : Type} [DecidableEq α] : List (α × β) → α → β → List (α × β)
  | [], k, v => [(k, v)]
  | (k', v') :: rest, k, v =>
      if k' = k then (k', v) :: rest else (k', v') :: dictInsert rest k v

/-- `d.update(e)`: assign every binding of `e` into `d`, in order. -/
def dictUpdate {α β : Type} [DecidableEq α] : List (α × β) → List (α × β) → List (α × β)
  | d, [] => d
  | d, (k, v) :: rest => dictUpdate (dictInsert d k v) rest

/-- The key list of a dict. -/
def dictKeys {α β : Type} : List (α × β) → List α := List.map Prod.fst

/-! ### Python exceptions -/

/-- The python exception kinds the embedded code can raise. -/
inductive PyErr : Type where
  | valueError (msg : String)
  | keyError
  | indexError
  | attributeError
  | decodeError
deriving DecidableEq, Repr

instance {ε α : Type} [DecidableEq ε] [DecidableEq α] : DecidableEq (Except ε α) := by
  intro a b
  cases a <;> cases b
  case error.error e e' =>
    exact if h : e = e' then .isTrue (by rw [h]) else .isFalse (by simp [h])
  case error.ok e x => exact .isFalse (by simp)
  case ok.error x e => exact .isFalse (by simp)
  case ok.ok x y =>
    exact if h : x = y then .isTrue (by rw [h]) else .isFalse (by simp [h])

/-! ### Loop combinators mirroring python `for` loops under exceptions -/

/-- A python list-building `for` loop whose body may raise: stops at the
first exception. -/
def mapE {α β : Type} (f : α → Except PyErr β) : List α → Except PyErr (List β)
  | [] => .ok []
  | a :: as =>
      match f a with
      | .error e => .error e
      | .ok b =>
          match mapE f as with
          | .error e => .error e
          | .ok bs => .ok (b :: bs)

/-- A python accumulating `for` loop whose body may raise. -/
def foldE {σ α : Type} (f : σ → α → Except PyErr σ) : σ → List α → Except PyErr σ
  | s, [] => .ok s
  | s, a :: as =>
      match f s a with
      | .error e => .error e
      | .ok s' => foldE f s' as

/-! ### String helpers for the python indexing and `split` idioms -/

/-- `s.split('/')` on a character list. -/
def splitSlash : List Char → List (List Char)
  | [] => [[]]
  | c :: rest =>
      if c = '/' then [] :: splitSlash rest
      else
        match splitSlash rest with
        | [] => [[c]]
        | s :: ss => (c :: s) :: ss

/-- `s.split('/')[-1]`: the tail of the last `/` (python `split` never
returns an empty list). -/
def lastSegment (s : String) : String :=
  String.mk ((splitSlash s.data).getLastD [])

/-- Whitespace split of a multi-valued HTML attribute value. -/
def splitWs : List Char → List (List Char)
  | [] => [[]]
  | c :: rest =>
      if c = ' ' then [] :: splitWs rest
      else
        match splitWs rest with
        | [] => [[c]]
        | s :: ss => (c :: s) :: ss

/-! ### The regex patterns of the parser, over character lists -/

/-- Literal-prefix test used by the regex model. -/
def listPre : List Char → List Char → Bool
  | [], _ => true
  | _ :: _, [] => false
  | p :: ps, c :: cs => if p = c then listPre ps cs else false

/-- python `s.startswith(q)`. -/
def pyStartsWith (s q : String) : Bool := listPre q.data s.data

/-- python `s.endswith(q)`. -/
def pyEndsWith (s q : String) : Bool := listPre q.data.reverse s.data.reverse

/-- Match `pre`, one decimal digit, then `post` at the head of `s`
(the shape of all three regexes in the source). -/
def matchAt (pre post : List Char) (s : List Char) : Bool :=
  listPre pre s &&
    (match s.drop pre.length with
     | [] => false
     | d :: rest => d.isDigit && listPre post rest)

/-- `re.search`: the pattern matches at some position of `s`. -/
def regexSearch (pre post : List Char) (s : List Char) : Bool :=
  matchAt pre post s ||
    (match s with
     | [] => false
     | _ :: cs => regexSearch pre post cs)

/-! ### The HTML document model and the bs4 operations the source uses -/

/-- A parsed HTML tree node: an element with attributes and children, or a
text node. -/
inductive Node : Type where
  | elem (tag : String) (attrs : List (String × String)) (children : List Node)
  | textNode (s : String)

/-- Direct children (`tag.contents`). -/
def Node.children : Node → List Node
  | .elem _ _ cs => cs
  | .textNode _ => []

/-- Attribute lookup (`tag.attrs.get(k)` / `tag[k]`). -/
def Node.attr? : Node → String → Option String
  | .elem _ attrs _, k => dictGet? attrs k
  | .textNode _, _ => none

/-- Is this an element with the given tag name? -/
def Node.isElem : Node → String → Bool
  | .elem t _ _, q => t == q
  | .textNode _, _ => false

mutual

/-- A node together with all its descendants, in document (pre-)order. -/
def descendantsSelf : Node → List Node
  | .textNode s => [.textNode s]
  | .elem t a cs => .elem t a cs :: descendantsList cs

/-- All nodes of a forest, in document order. -/
def descendantsList : List Node → List Node
  | [] => []
  | c :: cs => descendantsSelf c ++ descendantsList cs

end

/-- `tag.findAll(...)`: all strict descendants satisfying the predicate, in
document order (bs4 searches descendants, not the node itself). -/
def Node.findAll (n : Node) (p : Node → Bool) : List Node :=
  (descendantsList n.children).filter p

/-- `tag.find(...)`: the first matching strict descendant, if any. -/
def Node.find? (n : Node) (p : Node → Bool) : Option Node :=
  (n.findAll p).head?

mutual

/-- `tag.text`: concatenation of all descendant strings. -/
def Node.text : Node → String
  | .textNode s => s
  | .elem _ _ cs => textList cs

/-- Concatenated text of a forest. -/
def textList : List Node → String
  | [] => ""
  | c :: cs => Node.text c ++ textList cs

end

/-- bs4 attrs-dict match `{'class': None}`: the attribute is absent. -/
def Node.hasNoClass (n : Node) : Bool :=
  (n.attr? "class").isNone

/-- bs4 class match against a string: the query is one of the
space-separated classes, or the exact full attribute value. -/
def classIs (q : String) (n : Node) : Bool :=
  match n.attr? "class" with
  | some v => (splitWs v.data).contains q.data || v == q
  | none => false

/-- bs4 class match against a regex: the pattern matches one of the
classes or the full attribute value. -/
def classSearch (pre post : List Char) (n : Node) : Bool :=
  match n.attr? "class" with
  | some v =>
      (splitWs v.data).any (fun w => regexSearch pre post w) ||
        regexSearch pre post v.data
  | none => false

/-- bs4 id match against a regex. -/
def idSearch (pre post : List Char) (n : Node) : Bool :=
  match n.attr? "id" with
  | some v => regexSearch pre post v.data
  | none => false

/-! ### Configuration constants of the source -/

/-- `SHORTNAMES` (mensa.py lines 18-26). -/
def SHORTNAMES : List (String × String) :=
  [("Adenauerring", "Mensa Am Adenauerring"),
   ("Erzbergerstraße", "Mensa Erzbergerstraße"),
   ("Holzgartenstraße", "Mensa Holzgartenstraße"),
   ("Moltkestraße", "Mensa Moltke"),
   ("Gottesaue", "Mensa Schloss Gottesaue"),
   ("Tiefenbronnerstraße", "Mensa Tiefenbronnerstraße")]

/-- `ICON_TAGS` (mensa.py lines 27-34). -/
def ICON_TAGS : List (String × String) :=
  [("vegetarian_2.gif", "veggi"),
   ("vegan_2.gif", "vegan"),
   ("s_2.gif", "schwein"),
   ("r_2.gif", "rind"),
   ("m_2.gif", "fisch"),
   ("bio_2.gif", "bio")]

/-! ### The data model -/

/-- One meal dict as built by the source (mensa.py lines 209-214). -/
structure Meal : Type where
  name : String
  note : String
  price : String
  tags : List String
deriving DecidableEq, Repr

/-- A serving line: the ordered meal list. -/
abbrev Line := List Meal

/-- A canteen: line name to line, insertion ordered. -/
abbrev Canteen := List (String × Line)

/-- The whole scraped state: canteen name to canteen. -/
abbrev Snapshot := List (String × Canteen)

/-! ### The parser, `parse_sw_site` (mensa.py lines 173-217) -/

/-- The pattern `canteen_place_\d`. -/
def canteenPat : List Char := "canteen_place_".data

/-- The literal part of `fragment-c\d-1` before the digit. -/
def fragPre : List Char := "fragment-c".data

/-- The literal part of `fragment-c\d-1` after the digit. -/
def fragPost : List Char := "-1".data

/-- The literal part of `mt-\d` before the digit. -/
def mtPre : List Char := "mt-".data

/-- Selector `('div', {'id': re.compile(r'canteen_place_\d')})`. -/
def isCanteenDiv (n : Node) : Bool :=
  n.isElem "div" && idSearch canteenPat [] n

/-- Selector `('div', {'id': re.compile(r'fragment-c\d-1')})`. -/
def isFragmentDiv (n : Node) : Bool :=
  n.isElem "div" && idSearch fragPre fragPost n

/-- Selector `('tr', {'class': None})`. -/
def isPlainTr (n : Node) : Bool :=
  n.isElem "tr" && n.hasNoClass

/-- Selector `('tr', {'class': re.compile(r'mt-\d')})`. -/
def isMealTr (n : Node) : Bool :=
  n.isElem "tr" && classSearch mtPre [] n

/-- Selector `('td', {'class': 'mensatype'})`. -/
def isMensatypeTd (n : Node) : Bool :=
  n.isElem "td" && classIs "mensatype" n

/-- Selector `('td', {'class': 'first'})`. -/
def isFirstTd (n : Node) : Bool :=
  n.isElem "td" && classIs "first" n

/-- Selector `('span', {'class': None})`. -/
def isPlainSpan (n : Node) : Bool :=
  n.isElem "span" && n.hasNoClass

/-- Selector `('span', {'class': 'bgp price_1'})`. -/
def isPriceSpan (n : Node) : Bool :=
  n.isElem "span" && classIs "bgp price_1" n

/-- Selector `('img', {'class': 'mealicon_2'})`. -/
def isMealIcon (n : Node) : Bool :=
  n.isElem "img" && classIs "mealicon_2" n

/-- Python truthiness filter `if tag` over an optional string: drops
`None` and the empty string (mensa.py line 213). -/
def truthy : Option String → Option String
  | some s => if s = "" then none else some s
  | none => none

/-- The icon lookup `ICON_TAGS.get(img['src'].split('/')[-1])` for one
`img` element (mensa.py lines 207-208); a missing `src` raises. -/
def iconLookup (img : Node) : Except PyErr (Option String) :=
  match img.attr? "src" with
  | none => Except.error PyErr.keyError
  | some src => Except.ok (dictGet? ICON_TAGS (lastSegment src))

/-- The meal-row body of the parser loop (mensa.py lines 205-214):
extract name, optional note, price and icon tags from one `mt-\d` row;
a missing required element raises. -/
def parseMeal (mtr : Node) : Except PyErr Meal :=
  match mtr.find? isFirstTd with
  | none => .error .attributeError
  | some td =>
    let note := td.find? isPlainSpan
    match mapE iconLookup (mtr.findAll isMealIcon) with
    | .error e => .error e
    | .ok tagnames =>
      match mtr.find? (fun n => n.isElem "b") with
      | none => .error .attributeError
      | some bEl =>
        match mtr.find? isPriceSpan with
        | none => .error .attributeError
        | some priceEl =>
          .ok { name := bEl.text
                note := match note with
                        | some sp => sp.text
                        | none => ""
                price := priceEl.text
                tags := tagnames.filterMap truthy }

/-- The body of the line loop for one `tr` (mensa.py lines 199-215):
rows without a `mensatype` cell are skipped, the rest contribute their
meal list under the line name. -/
def lineStep (lines : Canteen) (ltr : Node) : Except PyErr Canteen :=
  match ltr.find? isMensatypeTd with
  | none => Except.ok lines
  | some nametd =>
    match nametd.children with
    | [] => Except.error PyErr.indexError
    | c0 :: _ =>
      match mapE parseMeal (ltr.findAll isMealTr) with
      | .error e => .error e
      | .ok meals => Except.ok (dictInsert lines c0.text meals)

/-- The per-fragment line loop (mensa.py lines 197-215). -/
def buildLines (ltrs : List Node) : Except PyErr Canteen :=
  foldE lineStep [] ltrs

/-- The body of the canteen-name dict comprehension (mensa.py lines
190-192) for one `div`: last id character to first `h1` text. -/
def canteenStep (acc : List (Char × String)) (div : Node) :
    Except PyErr (List (Char × String)) :=
  match div.attr? "id" with
  | none => Except.error PyErr.keyError
  | some idStr =>
    match idStr.data.getLast? with
    | none => Except.error PyErr.indexError
    | some key =>
      match div.findAll (fun n => n.isElem "h1") with
      | [] => Except.error PyErr.indexError
      | h1 :: _ => Except.ok (dictInsert acc key h1.text)

/-- The canteen-name dict comprehension (mensa.py lines 190-192). -/
def buildCanteens (divs : List Node) : Except PyErr (List (Char × String)) :=
  foldE canteenStep [] divs

/-- The body of the fragment loop for one menu `div` (mensa.py lines
196-216): build the line dict, then store it under
`canteens[div.attrs['id'][-3]]`. -/
def fragmentStep (canteens : List (Char × String)) (mensen : Snapshot)
    (div : Node) : Except PyErr Snapshot :=
  match buildLines (div.findAll isPlainTr) with
  | .error e => .error e
  | .ok lines =>
    match div.attr? "id" with
    | none => Except.error PyErr.keyError
    | some idStr =>
      match idStr.data.reverse.get? 2 with
      | none => Except.error PyErr.indexError
      | some key =>
        match dictGet? canteens key with
        | none => Except.error PyErr.keyError
        | some cname => Except.ok (dictInsert mensen cname lines)

/-- `parse_sw_site` (mensa.py lines 173-217) over the parsed document. -/
def parse_sw_site (soup : Node) : Except PyErr Snapshot :=
  match buildCanteens (soup.findAll isCanteenDiv) with
  | .error e => .error e
  | .ok canteens => foldE (fragmentStep canteens) [] (soup.findAll isFragmentDiv)

/-! ### The cache and `update` (mensa.py lines 86-120) -/

/-- The module-level state: `DATA` and `META_DATA['last_update']`. -/
structure CacheState : Type where
  data : Snapshot
  last_update : Option String
deriving DecidableEq, Repr

/-- Process-start state: `DATA = {}`, `META_DATA = {'last_update': None}`. -/
def initState : CacheState := { data := [], last_update := none }

/-- One refresh cycle's external input: the HTTP status, the decoded
document (`Except` when the post-excision utf-8 decode fails), and the
tick time `now.isoformat()`. -/
structure CycleInput : Type where
  status : Nat
  decoded : Except PyErr Node
  now : String

/-- The control flow of `update` (mensa.py lines 99-120): a non-success
status returns with no state change; otherwise a decode or parse
exception propagates (raised before any state mutation); on success
`DATA.update(data)` merges the parse result in and the timestamp is set. -/
def updateStep (inp : CycleInput) (st : CacheState) : Except PyErr CacheState :=
  if inp.status < 300 then
    match inp.decoded with
    | .error e => .error e
    | .ok soup =>
        match parse_sw_site soup with
        | .error e => .error e
        | .ok data =>
            .ok { data := dictUpdate st.data data
                  last_update := some inp.now }
  else
    .ok st

/-- The module state after an `update` call: an uncaught exception leaves
the globals exactly as they were. -/
def runUpdate (inp : CycleInput) (st : CacheState) : CacheState :=
  match updateStep inp st with
  | .ok st' => st'
  | .error _ => st

/-- `check_for_updates` (mensa.py lines 165-170) as seen by a finite
schedule of ticks: each tick awaits one `update`; an exception escaping
`update` kills the background task, so later ticks never run.  Returns
how many scheduled ticks actually executed. -/
def ticksRun : List CycleInput → CacheState → Nat
  | [], _ => 0
  | c :: cs, st =>
      match updateStep c st with
      | .ok st' => 1 + ticksRun cs st'
      | .error _ => 1

/-! ### The resolver, `get_mensa` / `get_line` (mensa.py lines 225-249) -/

/-- `get_mensa` (mensa.py lines 225-235): prefix-match the query against
the `SHORTNAMES` keys; one match indexes `DATA` (a `KeyError` when the
canonical name is not cached). -/
def get_mensa (query : String) (data : Snapshot) : Except PyErr Canteen :=
  let cands := (SHORTNAMES.filter (fun p => pyStartsWith p.1 query)).map Prod.snd
  match cands with
  | [] => .error (.valueError "Unkown Mensa")
  | [m] =>
      match dictGet? data m with
      | some c => .ok c
      | none => .error .keyError
  | _ => .error (.valueError "Ambiguous short name")

/-- `get_line` (mensa.py lines 238-249): resolve the mensa, then
suffix-match the line query against its line names. -/
def get_line (mquery lquery : String) (data : Snapshot) : Except PyErr Line :=
  match get_mensa mquery data with
  | .error e => .error e
  | .ok mdata =>
      let cands := (mdata.map Prod.fst).filter (fun l => pyEndsWith l lquery)
      match cands with
      | [] => .error (.valueError "Unkown Line")
      | [l] =>
          match dictGet? mdata l with
          | some meals => .ok meals
          | none => .error .keyError
      | _ => .error (.valueError "Ambiguous short name")

/-- What the HTTP caller observes from `req2resp` (mensa.py lines
278-292): `ValueError` is caught and rendered as a typed error message;
any other exception escapes the handler. -/
inductive RespOutcome : Type where
  | ok (c : Canteen)
  | typedError (msg : String)
  | uncaught (e : PyErr)
deriving DecidableEq, Repr

/-- `req2resp` on the `/{mensa}` route: only `ValueError` is caught. -/
def req2resp_mensa (query : String) (data : Snapshot) : RespOutcome :=
  match get_mensa query data with
  | .ok c => .ok c
  | .error (.valueError msg) => .typedError msg
  | .error e => .uncaught e

/-! ### Dictionary lemmas -/

@[simp] theorem dictGet?_nil {α β : Type} [DecidableEq α] (k : α) :
    dictGet? ([] : List (α × β)) k = none := rfl

@[simp] theorem dictGet?_cons {α β : Type} [DecidableEq α] (k' : α) (v' : β)
    (d : List (α × β)) (k : α) :
    dictGet? ((k', v') :: d) k = if k' = k then some v' else dictGet? d k := rfl

theorem dictGet?_mem_values {α β : Type} [DecidableEq α] {d : List (α × β)}
    {k : α} {v : β} (h : dictGet? d k = some v) : v ∈ d.map Prod.snd := by
  induction d with
  | nil => simp at h
  | cons p rest ih =>
      obtain ⟨k', v'⟩ := p
      simp only [dictGet?_cons] at h
      by_cases hk : k' = k
      · rw [if_pos hk] at h
        injection h with h
        simp [h]
      · rw [if_neg hk] at h
        simpa using Or.inr (ih h)

@[simp] theorem dictInsert_nil {α β : Type} [DecidableEq α] (k : α) (v : β) :
    dictInsert [] k v = [(k, v)] := rfl

@[simp] theorem dictInsert_cons {α β : Type} [DecidableEq α] (k' : α) (v' : β)
    (d : List (α × β)) (k : α) (v : β) :
    dictInsert ((k', v') :: d) k v =
      if k' = k then (k', v) :: d else (k', v') :: dictInsert d k v := rfl

theorem dictInsert_not_mem {α β : Type} [DecidableEq α] {d : List (α × β)}
    {k : α} (v : β) (h : k ∉ d.map Prod.fst) : dictInsert d k v = d ++ [(k, v)] := by
  induction d with
  | nil => rfl
  | cons p rest ih =>
      obtain ⟨k', v'⟩ := p
      simp only [List.map_cons, List.mem_cons] at h
      push_neg at h
      simp [dictInsert_cons, Ne.symm h.1, ih h.2]

theorem mem_of_mem_dictInsert {α β : Type} [DecidableEq α] {d : List (α × β)}
    {k : α} {v : β} {x : α × β} (h : x ∈ dictInsert d k v) :
    x = (k, v) ∨ x ∈ d := by
  induction d with
  | nil => simpa using h
  | cons p rest ih =>
      obtain ⟨k', v'⟩ := p
      simp only [dictInsert_cons] at h
      by_cases hk : k' = k
      · rw [if_pos hk] at h
        rcases List.mem_cons.mp h with h | h
        · left; rw [h, hk]
        · right; exact List.mem_cons_of_mem _ h
      · rw [if_neg hk] at h
        rcases List.mem_cons.mp h with h | h
        · right; simp [h]
        · rcases ih h with h | h
          · left; exact h
          · right; exact List.mem_cons_of_mem _ h

theorem mem_keys_dictInsert {α β : Type} [DecidableEq α] {d : List (α × β)}
    {k a : α} (v : β) :
    a ∈ (dictInsert d k v).map Prod.fst ↔ a = k ∨ a ∈ d.map Prod.fst := by
  induction d with
  | nil => simp
  | cons p rest ih =>
      obtain ⟨k', v'⟩ := p
      rw [dictInsert_cons]
      by_cases hk : k' = k
      · subst hk
        rw [if_pos rfl]
        simp only [List.map_cons, List.mem_cons]
        tauto
      · rw [if_neg hk]
        simp only [List.map_cons, List.mem_cons, ih]
        tauto

theorem dictGet?_dictInsert_self {α β : Type} [DecidableEq α]
    (d : List (α × β)) (k : α) (v : β) :
    dictGet? (dictInsert d k v) k = some v := by
  induction d with
  | nil => simp
  | cons p rest ih =>
      obtain ⟨k', v'⟩ := p
      by_cases hk : k' = k
      · simp [hk]
      · simp [hk, ih]

theorem dictGet?_dictInsert_ne {α β : Type} [DecidableEq α]
    (d : List (α × β)) {k a : α} (v : β) (h : a ≠ k) :
    dictGet? (dictInsert d k v) a = dictGet? d a := by
  induction d with
  | nil => simp [Ne.symm h]
  | cons p rest ih =>
      obtain ⟨k', v'⟩ := p
      rw [dictInsert_cons]
      by_cases hk : k' = k
      · subst hk
        rw [if_pos rfl]
        simp [Ne.symm h]
      · rw [if_neg hk]
        by_cases ha : k' = a
        · simp [ha]
        · simp [ha, ih]

@[simp] theorem dictUpdate_nil {α β : Type} [DecidableEq α] (d : List (α × β)) :
    dictUpdate d [] = d := rfl

@[simp] theorem dictUpdate_cons {α β : Type} [DecidableEq α] (d : List (α × β))
    (k : α) (v : β) (e : List (α × β)) :
    dictUpdate d ((k, v) :: e) = dictUpdate (dictInsert d k v) e := rfl

theorem mem_keys_dictUpdate {α β : Type} [DecidableEq α] {a : α} :
    ∀ (e d : List (α × β)),
      a ∈ (dictUpdate d e).map Prod.fst ↔ a ∈ d.map Prod.fst ∨ a ∈ e.map Prod.fst := by
  intro e
  induction e with
  | nil => simp
  | cons p rest ih =>
      intro d
      obtain ⟨k, v⟩ := p
      simp only [dictUpdate_cons, ih, mem_keys_dictInsert, List.map_cons, List.mem_cons]
      tauto

theorem dictGet?_dictUpdate_not_mem {α β : Type} [DecidableEq α] {a : α} :
    ∀ (e d : List (α × β)), a ∉ e.map Prod.fst →
      dictGet? (dictUpdate d e) a = dictGet? d a := by
  intro e
  induction e with
  | nil => simp
  | cons p rest ih =>
      intro d h
      obtain ⟨k, v⟩ := p
      simp only [List.map_cons, List.mem_cons] at h
      push_neg at h
      rw [dictUpdate_cons, ih _ h.2, dictGet?_dictInsert_ne _ _ h.1]

theorem dictGet?_dictUpdate_mem {α β : Type} [DecidableEq α] {a : α} {v : β} :
    ∀ (e d : List (α × β)), (e.map Prod.fst).Nodup → dictGet? e a = some v →
      dictGet? (dictUpdate d e) a = some v := by
  intro e
  induction e with
  | nil => simp
  | cons p rest ih =>
      intro d hnd hget
      obtain ⟨k, w⟩ := p
      simp only [List.map_cons, List.nodup_cons] at hnd
      simp only [dictGet?_cons] at hget
      by_cases hk : k = a
      · rw [if_pos hk] at hget
        injection hget with hget
        subst hget
        rw [dictUpdate_cons, dictGet?_dictUpdate_not_mem _ _ (hk ▸ hnd.1), hk,
          dictGet?_dictInsert_self]
      · rw [if_neg hk] at hget
        rw [dictUpdate_cons]
        exact ih _ hnd.2 hget

theorem dictGet?_of_mem_nodup {α β : Type} [DecidableEq α] {d : List (α × β)}
    {k : α} {v : β} (hnd : (d.map Prod.fst).Nodup) (h : (k, v) ∈ d) :
    dictGet? d k = some v := by
  induction d with
  | nil => simp at h
  | cons p rest ih =>
      obtain ⟨k', v'⟩ := p
      simp only [List.map_cons, List.nodup_cons] at hnd
      rcases List.mem_cons.mp h with h | h
      · injection h with h1 h2
        subst h1; subst h2
        simp
      · have hne : k' ≠ k := by
          intro he
          exact hnd.1 (he ▸ List.mem_map.mpr ⟨(k, v), h, rfl⟩)
        simp [hne, ih hnd.2 h]

theorem exists_dictGet?_of_mem_keys {α β : Type} [DecidableEq α]
    {d : List (α × β)} {k : α} (h : k ∈ d.map Prod.fst) :
    ∃ v, dictGet? d k = some v := by
  induction d with
  | nil => simp at h
  | cons p rest ih =>
      obtain ⟨k', v'⟩ := p
      by_cases hk : k' = k
      · exact ⟨v', by simp [hk]⟩
      · simp only [List.map_cons, List.mem_cons] at h
        rcases h with h | h
        · exact absurd h.symm hk
        · simpa [hk] using ih h

/-! ### Loop-combinator lemmas -/

@[simp] theorem mapE_nil {α β : Type} (f : α → Except PyErr β) :
    mapE f [] = .ok [] := rfl

@[simp] theorem mapE_cons {α β : Type} (f : α → Except PyErr β) (a : α)
    (as : List α) :
    mapE f (a :: as) =
      match f a with
      | .error e => .error e
      | .ok b =>
          match mapE f as with
          | .error e => .error e
          | .ok bs => .ok (b :: bs) := rfl

theorem mapE_map_ok {α β γ : Type} {f : γ → Except PyErr β} {g : α → γ}
    {h : α → β} : ∀ {l : List α}, (∀ x ∈ l, f (g x) = .ok (h x)) →
      mapE f (l.map g) = .ok (l.map h) := by
  intro l
  induction l with
  | nil => intro; rfl
  | cons a as ih =>
      intro hl
      have ha := hl a (List.mem_cons_self a as)
      have has := ih fun x hx => hl x (List.mem_cons_of_mem _ hx)
      simp [ha, has]

theorem exists_of_mapE_ok {α β : Type} {f : α → Except PyErr β} :
    ∀ {l : List α} {ys : List β}, mapE f l = .ok ys → ∀ y ∈ ys,
      ∃ x ∈ l, f x = .ok y := by
  intro l
  induction l with
  | nil =>
      intro ys h y hy
      simp only [mapE_nil] at h
      injection h with h
      subst h
      simp at hy
  | cons a as ih =>
      intro ys h y hy
      simp only [mapE_cons] at h
      cases hfa : f a with
      | error e => rw [hfa] at h; cases h
      | ok b =>
          rw [hfa] at h
          cases hmas : mapE f as with
          | error e => rw [hmas] at h; cases h
          | ok bs =>
              rw [hmas] at h
              injection h with h
              subst h
              rcases List.mem_cons.mp hy with hy | hy
              · exact ⟨a, List.mem_cons_self a as, hy ▸ hfa⟩
              · obtain ⟨x, hx, hfx⟩ := ih hmas y hy
                exact ⟨x, List.mem_cons_of_mem _ hx, hfx⟩

@[simp] theorem foldE_nil {σ α : Type} (f : σ → α → Except PyErr σ) (s : σ) :
    foldE f s [] = .ok s := rfl

@[simp] theorem foldE_cons {σ α : Type} (f : σ → α → Except PyErr σ) (s : σ)
    (a : α) (as : List α) :
    foldE f s (a :: as) =
      match f s a with
      | .error e => .error e
      | .ok s' => foldE f s' as := rfl

theorem foldE_cons_ok {σ α : Type} (f : σ → α → Except PyErr σ) {s s' : σ}
    {a : α} (as : List α) (h : f s a = .ok s') :
    foldE f s (a :: as) = foldE f s' as := by
  simp [foldE_cons, h]

theorem foldE_invariant {σ α : Type} {f : σ → α → Except PyErr σ}
    (P : σ → Prop) :
    ∀ {l : List α} {s r : σ}, P s →
      (∀ s a, a ∈ l → P s → ∀ s', f s a = .ok s' → P s') →
      foldE f s l = .ok r → P r := by
  intro l
  induction l with
  | nil =>
      intro s r hs _ h
      injection h with h
      subst h
      exact hs
  | cons a as ih =>
      intro s r hs hstep h
      simp only [foldE_cons] at h
      cases hfa : f s a with
      | error e => rw [hfa] at h; cases h
      | ok s' =>
          rw [hfa] at h
          exact ih (hstep s a (List.mem_cons_self a as) hs s' hfa)
            (fun t b hb => hstep t b (List.mem_cons_of_mem _ hb)) h

/-! ### Regex-model lemmas -/

theorem listPre_self_append (l r : List Char) : listPre l (l ++ r) = true := by
  induction l with
  | nil => rfl
  | cons c cs ih => simp [listPre, ih]

theorem matchAt_pre_digit {c : Char} (pre post rest : List Char)
    (hd : c.isDigit = true) (hp : listPre post rest = true) :
    matchAt pre post (pre ++ c :: rest) = true := by
  simp [matchAt, listPre_self_append, List.drop_left, hd, hp]

theorem regexSearch_of_matchAt {pre post s : List Char}
    (h : matchAt pre post s = true) : regexSearch pre post s = true := by
  cases s with
  | nil => simp [regexSearch, h]
  | cons c cs => simp [regexSearch, h]

/-! ### Tree-traversal lemmas -/

@[simp] theorem descendantsList_nil : descendantsList [] = [] := rfl

@[simp] theorem descendantsList_cons (c : Node) (cs : List Node) :
    descendantsList (c :: cs) = descendantsSelf c ++ descendantsList cs := rfl

@[simp] theorem descendantsSelf_elem (t : String) (a : List (String × String))
    (cs : List Node) :
    descendantsSelf (.elem t a cs) = .elem t a cs :: descendantsList cs := rfl

@[simp] theorem descendantsSelf_text (s : String) :
    descendantsSelf (.textNode s) = [.textNode s] := rfl

theorem descendantsList_append (a b : List Node) :
    descendantsList (a ++ b) = descendantsList a ++ descendantsList b := by
  induction a with
  | nil => rfl
  | cons c cs ih => simp [ih]

@[simp] theorem textList_nil : textList [] = "" := rfl

@[simp] theorem textList_cons (c : Node) (cs : List Node) :
    textList (c :: cs) = Node.text c ++ textList cs := rfl

@[simp] theorem text_textNode (s : String) : Node.text (.textNode s) = s := rfl

@[simp] theorem text_elem (t : String) (a : List (String × String))
    (cs : List Node) : Node.text (.elem t a cs) = textList cs := rfl

theorem text_elem_single (t : String) (a : List (String × String))
    (s : String) : Node.text (.elem t a [.textNode s]) = s := by
  simp [String.append_empty]

/-! ### Split-function lemmas -/

theorem splitSlash_no_slash {l : List Char} (h : ∀ c ∈ l, c ≠ '/') :
    splitSlash l = [l] := by
  induction l with
  | nil => rfl
  | cons c cs ih =>
      have hc : c ≠ '/' := h c (List.mem_cons_self c cs)
      rw [splitSlash, if_neg hc, ih fun x hx => h x (List.mem_cons_of_mem _ hx)]

theorem lastSegment_no_slash {s : String} (h : ∀ c ∈ s.data, c ≠ '/') :
    lastSegment s = s := by
  rw [lastSegment, splitSlash_no_slash h]
  rfl

/-! ### Fixture pages for the parser claims

A well-formed fixture page, in the shape the parser targets: canteen
container `div`s with ids `canteen_place_<digit>` holding an `h1` with the
display name, and per-canteen fragment `div`s with ids
`fragment-c<digit>-1` holding a table of class-less line rows, each with a
`mensatype` name cell and nested `mt-<digit>` meal rows. -/

/-- Description of one meal sub-row of a fixture page. -/
structure MealDesc : Type where
  mtc : Char
  mname : String
  note : Option String
  price : String
  icons : List String
deriving DecidableEq, Repr

/-- Description of one line row of a fixture page. -/
structure LineDesc : Type where
  lname : String
  meals : List MealDesc
deriving DecidableEq, Repr

/-- Description of one canteen (container plus menu fragment). -/
structure CanteenDesc : Type where
  idxc : Char
  cname : String
  lines : List LineDesc
deriving DecidableEq, Repr

/-- An icon image of a meal row. -/
def mkImg (fn : String) : Node :=
  .elem "img" [("class", "mealicon_2"), ("src", fn)] []

/-- The optional class-less note span of a meal cell. -/
def noteNodes : Option String → List Node
  | some s => [.elem "span" [] [.textNode s]]
  | none => []

/-- The `first` cell of a meal row: bold name, optional note span, price
span, icon images. -/
def mealTd (m : MealDesc) : Node :=
  .elem "td" [("class", "first")]
    (.elem "b" [] [.textNode m.mname] ::
      (noteNodes m.note ++
        (.elem "span" [("class", "bgp price_1")] [.textNode m.price] ::
          m.icons.map mkImg)))

/-- A meal sub-row with class `mt-<digit>`. -/
def mkMealTr (m : MealDesc) : Node :=
  .elem "tr" [("class", "mt-" ++ String.singleton m.mtc)] [mealTd m]

/-- The `mensatype` name cell of a line row. -/
def mensatypeTd (l : LineDesc) : Node :=
  .elem "td" [("class", "mensatype")] [.textNode l.lname]

/-- A class-less line row: name cell plus a data cell holding the nested
meal-row table. -/
def mkLineTr (l : LineDesc) : Node :=
  .elem "tr" []
    [mensatypeTd l,
     .elem "td" [("class", "mensadata")]
       [.elem "table" [] (l.meals.map mkMealTr)]]

/-- A canteen container `div` with id `canteen_place_<digit>`. -/
def mkCanteenDiv (d : CanteenDesc) : Node :=
  .elem "div" [("id", "canteen_place_" ++ String.singleton d.idxc)]
    [.elem "h1" [] [.textNode d.cname]]

/-- A menu fragment `div` with id `fragment-c<digit>-1`. -/
def mkFragmentDiv (d : CanteenDesc) : Node :=
  .elem "div" [("id", "fragment-c" ++ String.singleton d.idxc ++ "-1")]
    [.elem "table" [] (d.lines.map mkLineTr)]

/-- A whole fixture page. -/
def mkPage (ds : List CanteenDesc) : Node :=
  .elem "html" [] (ds.map mkCanteenDiv ++ ds.map mkFragmentDiv)

/-- Well-formedness of a meal description: the row-class index is a digit
and icon filenames are bare file names (no `/`). -/
def WFMeal (m : MealDesc) : Prop :=
  m.mtc.isDigit = true ∧ ∀ i ∈ m.icons, ∀ c ∈ i.data, c ≠ '/'

/-- Well-formedness of a line description. -/
def WFLine (l : LineDesc) : Prop := ∀ m ∈ l.meals, WFMeal m

/-- Well-formedness of a canteen description: digit index, distinct line
names, well-formed meals. -/
def WFCanteen (d : CanteenDesc) : Prop :=
  d.idxc.isDigit = true ∧ (d.lines.map LineDesc.lname).Nodup ∧
    ∀ l ∈ d.lines, WFLine l

/-- Well-formedness of a fixture page: distinct digit indices, distinct
canteen names, well-formed canteens. -/
def WFPage (ds : List CanteenDesc) : Prop :=
  (ds.map CanteenDesc.idxc).Nodup ∧ (ds.map CanteenDesc.cname).Nodup ∧
    ∀ d ∈ ds, WFCanteen d

/-- The meal value the parser should produce from a meal sub-row. -/
def expectedMeal (m : MealDesc) : Meal :=
  { name := m.mname
    note := m.note.getD ""
    price := m.price
    tags := m.icons.filterMap fun i => dictGet? ICON_TAGS i }

/-- The line dict the parser should produce from one fragment. -/
def expectedCanteen (d : CanteenDesc) : Canteen :=
  d.lines.map fun l => (l.lname, l.meals.map expectedMeal)

/-- The snapshot the parser should produce from a fixture page. -/
def expectedSnapshot (ds : List CanteenDesc) : Snapshot :=
  ds.map fun d => (d.cname, expectedCanteen d)

/-! ### Pointwise selector evaluations on fixture nodes -/

@[simp] theorem children_elem (t : String) (a : List (String × String))
    (cs : List Node) : Node.children (.elem t a cs) = cs := rfl

@[simp] theorem children_text (s : String) : Node.children (.textNode s) = [] := rfl

@[simp] theorem isElem_elem (t : String) (a : List (String × String))
    (cs : List Node) (q : String) : Node.isElem (.elem t a cs) q = (t == q) := rfl

@[simp] theorem isElem_text (s q : String) : Node.isElem (.textNode s) q = false := rfl

/-- Selector evaluations on the node shapes occurring in fixture pages.
Predicates that only inspect the tag or concrete attribute keys and class
values reduce definitionally; the id and row-class selectors on abstract
digit indices need the regex lemmas. -/

@[simp] theorem isFirstTd_first (cs : List Node) :
    isFirstTd (.elem "td" [("class", "first")] cs) = true := rfl

@[simp] theorem isPlainSpan_b (a : List (String × String)) (cs : List Node) :
    isPlainSpan (.elem "b" a cs) = false := rfl

@[simp] theorem isPlainSpan_text (s : String) :
    isPlainSpan (.textNode s) = false := rfl

@[simp] theorem isPlainSpan_img (a : List (String × String)) (cs : List Node) :
    isPlainSpan (.elem "img" a cs) = false := rfl

@[simp] theorem isPlainSpan_span_empty (cs : List Node) :
    isPlainSpan (.elem "span" [] cs) = true := rfl

@[simp] theorem isPlainSpan_span_class (v : String) (cs : List Node) :
    isPlainSpan (.elem "span" [("class", v)] cs) = false := rfl

@[simp] theorem isMealIcon_td (a : List (String × String)) (cs : List Node) :
    isMealIcon (.elem "td" a cs) = false := rfl

@[simp] theorem isMealIcon_b (a : List (String × String)) (cs : List Node) :
    isMealIcon (.elem "b" a cs) = false := rfl

@[simp] theorem isMealIcon_text (s : String) :
    isMealIcon (.textNode s) = false := rfl

@[simp] theorem isMealIcon_span (a : List (String × String)) (cs : List Node) :
    isMealIcon (.elem "span" a cs) = false := rfl

@[simp] theorem isMealIcon_img (sv : String) (cs : List Node) :
    isMealIcon (.elem "img" [("class", "mealicon_2"), ("src", sv)] cs) = true := rfl

@[simp] theorem isPriceSpan_td (a : List (String × String)) (cs : List Node) :
    isPriceSpan (.elem "td" a cs) = false := rfl

@[simp] theorem isPriceSpan_b (a : List (String × String)) (cs : List Node) :
    isPriceSpan (.elem "b" a cs) = false := rfl

@[simp] theorem isPriceSpan_text (s : String) :
    isPriceSpan (.textNode s) = false := rfl

@[simp] theorem isPriceSpan_img (a : List (String × String)) (cs : List Node) :
    isPriceSpan (.elem "img" a cs) = false := rfl

@[simp] theorem isPriceSpan_span_empty (cs : List Node) :
    isPriceSpan (.elem "span" [] cs) = false := rfl

@[simp] theorem isPriceSpan_span_price (cs : List Node) :
    isPriceSpan (.elem "span" [("class", "bgp price_1")] cs) = true := rfl

@[simp] theorem isMensatypeTd_mensatype (cs : List Node) :
    isMensatypeTd (.elem "td" [("class", "mensatype")] cs) = true := rfl

@[simp] theorem isMealTr_td (a : List (String × String)) (cs : List Node) :
    isMealTr (.elem "td" a cs) = false := rfl

@[simp] theorem isMealTr_text (s : String) : isMealTr (.textNode s) = false := rfl

@[simp] theorem isMealTr_table (a : List (String × String)) (cs : List Node) :
    isMealTr (.elem "table" a cs) = false := rfl

@[simp] theorem isMealTr_b (a : List (String × String)) (cs : List Node) :
    isMealTr (.elem "b" a cs) = false := rfl

@[simp] theorem isMealTr_span (a : List (String × String)) (cs : List Node) :
    isMealTr (.elem "span" a cs) = false := rfl

@[simp] theorem isMealTr_img (a : List (String × String)) (cs : List Node) :
    isMealTr (.elem "img" a cs) = false := rfl

@[simp] theorem isMealTr_tr_empty (cs : List Node) :
    isMealTr (.elem "tr" [] cs) = false := rfl

/-- A fixture meal row (class `mt-<digit>`) matches the `mt-\d` selector. -/
theorem isMealTr_tr_mt (c : Char) (cs : List Node) (h : c.isDigit = true) :
    isMealTr (.elem "tr" [("class", "mt-" ++ String.singleton c)] cs) = true := by
  have hm : regexSearch mtPre [] ('m' :: 't' :: '-' :: c :: []) = true :=
    regexSearch_of_matchAt (matchAt_pre_digit mtPre [] [] h rfl)
  simp [isMealTr, classSearch, Node.attr?, hm]

@[simp] theorem isPlainTr_td (a : List (String × String)) (cs : List Node) :
    isPlainTr (.elem "td" a cs) = false := rfl

@[simp] theorem isPlainTr_text (s : String) : isPlainTr (.textNode s) = false := rfl

@[simp] theorem isPlainTr_table (a : List (String × String)) (cs : List Node) :
    isPlainTr (.elem "table" a cs) = false := rfl

@[simp] theorem isPlainTr_b (a : List (String × String)) (cs : List Node) :
    isPlainTr (.elem "b" a cs) = false := rfl

@[simp] theorem isPlainTr_span (a : List (String × String)) (cs : List Node) :
    isPlainTr (.elem "span" a cs) = false := rfl

@[simp] theorem isPlainTr_img (a : List (String × String)) (cs : List Node) :
    isPlainTr (.elem "img" a cs) = false := rfl

@[simp] theorem isPlainTr_tr_empty (cs : List Node) :
    isPlainTr (.elem "tr" [] cs) = true := rfl

@[simp] theorem isPlainTr_tr_class (v : String) (cs : List Node) :
    isPlainTr (.elem "tr" [("class", v)] cs) = false := rfl

@[simp] theorem isCanteenDiv_h1 (a : List (String × String)) (cs : List Node) :
    isCanteenDiv (.elem "h1" a cs) = false := rfl

@[simp] theorem isCanteenDiv_text (s : String) :
    isCanteenDiv (.textNode s) = false := rfl

@[simp] theorem isCanteenDiv_table (a : List (String × String)) (cs : List Node) :
    isCanteenDiv (.elem "table" a cs) = false := rfl

@[simp] theorem isCanteenDiv_tr (a : List (String × String)) (cs : List Node) :
    isCanteenDiv (.elem "tr" a cs) = false := rfl

@[simp] theorem isCanteenDiv_td (a : List (String × String)) (cs : List Node) :
    isCanteenDiv (.elem "td" a cs) = false := rfl

@[simp] theorem isCanteenDiv_b (a : List (String × String)) (cs : List Node) :
    isCanteenDiv (.elem "b" a cs) = false := rfl

@[simp] theorem isCanteenDiv_span (a : List (String × String)) (cs : List Node) :
    isCanteenDiv (.elem "span" a cs) = false := rfl

@[simp] theorem isCanteenDiv_img (a : List (String × String)) (cs : List Node) :
    isCanteenDiv (.elem "img" a cs) = false := rfl

@[simp] theorem isFragmentDiv_h1 (a : List (String × String)) (cs : List Node) :
    isFragmentDiv (.elem "h1" a cs) = false := rfl

@[simp] theorem isFragmentDiv_text (s : String) :
    isFragmentDiv (.textNode s) = false := rfl

@[simp] theorem isFragmentDiv_table (a : List (String × String)) (cs : List Node) :
    isFragmentDiv (.elem "table" a cs) = false := rfl

@[simp] theorem isFragmentDiv_tr (a : List (String × String)) (cs : List Node) :
    isFragmentDiv (.elem "tr" a cs) = false := rfl

@[simp] theorem isFragmentDiv_td (a : List (String × String)) (cs : List Node) :
    isFragmentDiv (.elem "td" a cs) = false := rfl

@[simp] theorem isFragmentDiv_b (a : List (String × String)) (cs : List Node) :
    isFragmentDiv (.elem "b" a cs) = false := rfl

@[simp] theorem isFragmentDiv_span (a : List (String × String)) (cs : List Node) :
    isFragmentDiv (.elem "span" a cs) = false := rfl

@[simp] theorem isFragmentDiv_img (a : List (String × String)) (cs : List Node) :
    isFragmentDiv (.elem "img" a cs) = false := rfl

/-- A `canteen_place_<digit>` id matches the `canteen_place_\d` selector. -/
theorem isCanteenDiv_canteenId (c : Char) (cs : List Node) (h : c.isDigit = true) :
    isCanteenDiv
      (.elem "div" [("id", "canteen_place_" ++ String.singleton c)] cs) = true := by
  have hm : regexSearch canteenPat []
      ('c' :: 'a' :: 'n' :: 't' :: 'e' :: 'e' :: 'n' :: '_' :: 'p' :: 'l'
        :: 'a' :: 'c' :: 'e' :: '_' :: c :: []) = true :=
    regexSearch_of_matchAt (matchAt_pre_digit canteenPat [] [] h rfl)
  simp [isCanteenDiv, idSearch, Node.attr?, hm]

/-- A `fragment-c<digit>-1` id matches the `fragment-c\d-1` selector. -/
theorem isFragmentDiv_fragId (c : Char) (cs : List Node) (h : c.isDigit = true) :
    isFragmentDiv
      (.elem "div" [("id", "fragment-c" ++ String.singleton c ++ "-1")] cs) = true := by
  have hm : regexSearch fragPre fragPost
      ('f' :: 'r' :: 'a' :: 'g' :: 'm' :: 'e' :: 'n' :: 't' :: '-' :: 'c'
        :: c :: '-' :: '1' :: []) = true :=
    regexSearch_of_matchAt (matchAt_pre_digit fragPre fragPost ('-' :: '1' :: []) h rfl)
  simp [isFragmentDiv, idSearch, Node.attr?, hm]

/-- A `fragment-c<digit>-1` id never matches the `canteen_place_\d`
selector. -/
@[simp] theorem isCanteenDiv_fragId (c : Char) (cs : List Node) :
    isCanteenDiv
      (.elem "div" [("id", "fragment-c" ++ String.singleton c ++ "-1")] cs) = false := by
  have hs : ("fragment-c" ++ String.singleton c ++ "-1").data
      = 'f' :: 'r' :: 'a' :: 'g' :: 'm' :: 'e' :: 'n' :: 't' :: '-' :: 'c'
        :: c :: '-' :: '1' :: [] := by
    show ("fragment-c".data ++ [c]) ++ ['-', '1'] = _
    rw [List.append_assoc]
    rfl
  have hpat : canteenPat
      = 'c' :: 'a' :: 'n' :: 't' :: 'e' :: 'e' :: 'n' :: '_' :: 'p' :: 'l'
        :: 'a' :: 'c' :: 'e' :: '_' :: [] := rfl
  simp only [isCanteenDiv, idSearch, Node.attr?, dictGet?_cons, if_pos rfl,
    hs, hpat]
  simp [regexSearch, matchAt, listPre]

/-- A `canteen_place_<digit>` id never matches the `fragment-c\d-1`
selector. -/
@[simp] theorem isFragmentDiv_canteenId (c : Char) (cs : List Node) :
    isFragmentDiv
      (.elem "div" [("id", "canteen_place_" ++ String.singleton c)] cs) = false := by
  have hs : ("canteen_place_" ++ String.singleton c).data
      = 'c' :: 'a' :: 'n' :: 't' :: 'e' :: 'e' :: 'n' :: '_' :: 'p' :: 'l'
        :: 'a' :: 'c' :: 'e' :: '_' :: c :: [] := rfl
  have hpat : fragPre
      = 'f' :: 'r' :: 'a' :: 'g' :: 'm' :: 'e' :: 'n' :: 't' :: '-' :: 'c'
        :: [] := rfl
  simp only [isFragmentDiv, idSearch, Node.attr?, dictGet?_cons, if_pos rfl,
    hs, hpat]
  simp [regexSearch, matchAt, listPre]

/-! ### Filter helpers over mapped generators -/

theorem filter_map_nil {α : Type} (p : Node → Bool) (f : α → Node)
    (l : List α) (h : ∀ x, p (f x) = false) : (l.map f).filter p = [] := by
  induction l with
  | nil => rfl
  | cons a as ih => simp [h, ih]

theorem filter_map_self {α : Type} (p : Node → Bool) (f : α → Node)
    (l : List α) (h : ∀ x, p (f x) = true) : (l.map f).filter p = l.map f := by
  induction l with
  | nil => rfl
  | cons a as ih => simp [h, ih]

theorem descendantsList_map_mkImg (l : List String) :
    descendantsList (l.map mkImg) = l.map mkImg := by
  induction l with
  | nil => rfl
  | cons fn rest ih => simp [mkImg, ih]

theorem filter_descList_map_nil {α : Type} (p : Node → Bool) (f : α → Node)
    (l : List α) (h : ∀ x ∈ l, (descendantsSelf (f x)).filter p = []) :
    (descendantsList (l.map f)).filter p = [] := by
  induction l with
  | nil => rfl
  | cons a as ih =>
      simp only [List.map_cons, descendantsList_cons, List.filter_append,
        h a (List.mem_cons_self a as),
        ih fun x hx => h x (List.mem_cons_of_mem _ hx)]
      rfl

theorem filter_descList_map_self {α : Type} (p : Node → Bool) (f : α → Node)
    (l : List α) (h : ∀ x ∈ l, (descendantsSelf (f x)).filter p = [f x]) :
    (descendantsList (l.map f)).filter p = l.map f := by
  induction l with
  | nil => rfl
  | cons a as ih =>
      simp only [List.map_cons, descendantsList_cons, List.filter_append,
        h a (List.mem_cons_self a as),
        ih fun x hx => h x (List.mem_cons_of_mem _ hx)]
      rfl

/-! ### Evaluating the parser on a fixture meal row -/

theorem find?_firstTd (m : MealDesc) :
    (mkMealTr m).find? isFirstTd = some (mealTd m) := by
  simp [mkMealTr, mealTd, Node.find?, Node.findAll]

theorem find?_note (m : MealDesc) :
    (mealTd m).find? isPlainSpan
      = m.note.map fun s => Node.elem "span" [] [.textNode s] := by
  have h1 : (List.map mkImg m.icons).filter isPlainSpan = [] :=
    filter_map_nil _ _ _ fun x => rfl
  have h2 : descendantsList (List.map mkImg m.icons) = List.map mkImg m.icons :=
    descendantsList_map_mkImg m.icons
  cases hn : m.note with
  | none =>
      simp [mealTd, Node.find?, Node.findAll, hn, noteNodes,
        descendantsList_append, h2, h1, List.filter_append]
  | some s =>
      simp [mealTd, Node.find?, Node.findAll, hn, noteNodes,
        descendantsList_append, h2, List.filter_append]

theorem findAll_icons (m : MealDesc) :
    (mkMealTr m).findAll isMealIcon = m.icons.map mkImg := by
  have h1 : (List.map mkImg m.icons).filter isMealIcon = List.map mkImg m.icons :=
    filter_map_self _ _ _ fun x => rfl
  have h2 : descendantsList (List.map mkImg m.icons) = List.map mkImg m.icons :=
    descendantsList_map_mkImg m.icons
  cases hn : m.note with
  | none =>
      simp [mkMealTr, mealTd, Node.findAll, hn, noteNodes,
        descendantsList_append, h2, h1, List.filter_append]
  | some s =>
      simp [mkMealTr, mealTd, Node.findAll, hn, noteNodes,
        descendantsList_append, h2, h1, List.filter_append]

theorem find?_b (m : MealDesc) :
    (mkMealTr m).find? (fun n => n.isElem "b")
      = some (.elem "b" [] [.textNode m.mname]) := by
  simp [mkMealTr, mealTd, Node.find?, Node.findAll]

theorem find?_price (m : MealDesc) :
    (mkMealTr m).find? isPriceSpan
      = some (.elem "span" [("class", "bgp price_1")] [.textNode m.price]) := by
  have h1 : (List.map mkImg m.icons).filter isPriceSpan = [] :=
    filter_map_nil _ _ _ fun x => rfl
  have h2 : descendantsList (List.map mkImg m.icons) = List.map mkImg m.icons :=
    descendantsList_map_mkImg m.icons
  cases hn : m.note with
  | none =>
      simp [mkMealTr, mealTd, Node.find?, Node.findAll, hn, noteNodes,
        descendantsList_append, h2, h1, List.filter_append]
  | some s =>
      simp [mkMealTr, mealTd, Node.find?, Node.findAll, hn, noteNodes,
        descendantsList_append, h2, h1, List.filter_append]

theorem iconLookup_mkImg (fn : String) (h : ∀ c ∈ fn.data, c ≠ '/') :
    iconLookup (mkImg fn) = .ok (dictGet? ICON_TAGS fn) := by
  simp [iconLookup, mkImg, Node.attr?, lastSegment_no_slash h]

/-- The truthiness filter is the identity on `ICON_TAGS` lookups: all tag
values are non-empty strings. -/
theorem truthy_iconGet (i : String) :
    truthy (dictGet? ICON_TAGS i) = dictGet? ICON_TAGS i := by
  cases h : dictGet? ICON_TAGS i with
  | none => rfl
  | some v =>
      have hv := dictGet?_mem_values h
      simp [ICON_TAGS] at hv
      rcases hv with rfl | rfl | rfl | rfl | rfl | rfl <;> rfl

theorem filterMap_truthy_icons (l : List String) :
    List.filterMap (truthy ∘ fun i => dictGet? ICON_TAGS i) l
      = l.filterMap fun i => dictGet? ICON_TAGS i := by
  induction l with
  | nil => rfl
  | cons i rest ih =>
      simp only [List.filterMap_cons, Function.comp_apply, truthy_iconGet, ih]

/-- The parser reads a fixture meal row into exactly the described meal. -/
theorem parseMeal_mkMealTr (m : MealDesc) (h : WFMeal m) :
    parseMeal (mkMealTr m) = .ok (expectedMeal m) := by
  obtain ⟨-, hicons⟩ := h
  have h4 : mapE iconLookup (m.icons.map mkImg)
      = .ok (m.icons.map fun i => dictGet? ICON_TAGS i) :=
    mapE_map_ok fun i hi => iconLookup_mkImg i (hicons i hi)
  simp only [parseMeal, find?_firstTd, find?_note, findAll_icons, h4, find?_b,
    find?_price]
  cases hn : m.note with
  | none =>
      simp [expectedMeal, hn, text_elem_single, filterMap_truthy_icons]
  | some s =>
      simp [expectedMeal, hn, text_elem_single, filterMap_truthy_icons]

/-! ### Evaluating the parser on a fixture line row -/

theorem filter_descSelf_mkMealTr_isMealTr (m : MealDesc)
    (hd : m.mtc.isDigit = true) :
    (descendantsSelf (mkMealTr m)).filter isMealTr = [mkMealTr m] := by
  have h1 : (List.map mkImg m.icons).filter isMealTr = [] :=
    filter_map_nil _ _ _ fun x => rfl
  have h2 := descendantsList_map_mkImg m.icons
  cases hn : m.note with
  | none =>
      simp [mkMealTr, mealTd, hn, noteNodes, descendantsList_append, h1, h2,
        List.filter_append, isMealTr_tr_mt, hd]
  | some s =>
      simp [mkMealTr, mealTd, hn, noteNodes, descendantsList_append, h1, h2,
        List.filter_append, isMealTr_tr_mt, hd]

theorem filter_descSelf_mkMealTr_isPlainTr (m : MealDesc) :
    (descendantsSelf (mkMealTr m)).filter isPlainTr = [] := by
  have h1 : (List.map mkImg m.icons).filter isPlainTr = [] :=
    filter_map_nil _ _ _ fun x => rfl
  have h2 := descendantsList_map_mkImg m.icons
  cases hn : m.note with
  | none =>
      simp [mkMealTr, mealTd, hn, noteNodes, descendantsList_append, h1, h2,
        List.filter_append]
  | some s =>
      simp [mkMealTr, mealTd, hn, noteNodes, descendantsList_append, h1, h2,
        List.filter_append]

theorem findAll_mealTrs (l : LineDesc) (h : ∀ m ∈ l.meals, m.mtc.isDigit = true) :
    (mkLineTr l).findAll isMealTr = l.meals.map mkMealTr := by
  have h2 : (descendantsList (l.meals.map mkMealTr)).filter isMealTr
      = l.meals.map mkMealTr :=
    filter_descList_map_self _ _ _ fun m hm =>
      filter_descSelf_mkMealTr_isMealTr m (h m hm)
  simp [mkLineTr, mensatypeTd, Node.findAll, descendantsList_append, h2,
    List.filter_append]

theorem find?_mensatypeTd (l : LineDesc) :
    (mkLineTr l).find? isMensatypeTd = some (mensatypeTd l) := by
  simp [mkLineTr, mensatypeTd, Node.find?, Node.findAll]

/-- The line loop reads a fixture line row into its meal list, stored
under the line name. -/
theorem lineStep_mkLineTr (lines : Canteen) (l : LineDesc) (h : WFLine l) :
    lineStep lines (mkLineTr l)
      = .ok (dictInsert lines l.lname (l.meals.map expectedMeal)) := by
  have hall : (mkLineTr l).findAll isMealTr = l.meals.map mkMealTr :=
    findAll_mealTrs l fun m hm => (h m hm).1
  have hmeals : mapE parseMeal (l.meals.map mkMealTr)
      = .ok (l.meals.map expectedMeal) :=
    mapE_map_ok fun m hm => parseMeal_mkMealTr m (h m hm)
  simp only [lineStep, find?_mensatypeTd, hall, hmeals]
  simp [mensatypeTd]

/-! ### Evaluating the parser on a fixture fragment -/

theorem filter_descSelf_mkLineTr_isPlainTr (l : LineDesc) :
    (descendantsSelf (mkLineTr l)).filter isPlainTr = [mkLineTr l] := by
  have h2 : (descendantsList (l.meals.map mkMealTr)).filter isPlainTr = [] :=
    filter_descList_map_nil _ _ _ fun m _ => filter_descSelf_mkMealTr_isPlainTr m
  simp [mkLineTr, mensatypeTd, descendantsList_append, h2, List.filter_append]

theorem findAll_lineTrs (d : CanteenDesc) :
    (mkFragmentDiv d).findAll isPlainTr = d.lines.map mkLineTr := by
  have h2 : (descendantsList (d.lines.map mkLineTr)).filter isPlainTr
      = d.lines.map mkLineTr :=
    filter_descList_map_self _ _ _ fun l _ => filter_descSelf_mkLineTr_isPlainTr l
  simp [mkFragmentDiv, Node.findAll, descendantsList_append, h2,
    List.filter_append]

theorem foldE_lineStep (ls : List LineDesc) :
    ∀ acc : Canteen, (∀ l ∈ ls, WFLine l) → (ls.map LineDesc.lname).Nodup →
      (∀ l ∈ ls, l.lname ∉ acc.map Prod.fst) →
      foldE lineStep acc (ls.map mkLineTr)
        = .ok (acc ++ ls.map fun l => (l.lname, l.meals.map expectedMeal)) := by
  induction ls with
  | nil => intro acc _ _ _; simp
  | cons l rest ih =>
      intro acc hwf hnd hdisj
      have hl := hwf l (List.mem_cons_self l rest)
      have hfresh := hdisj l (List.mem_cons_self l rest)
      simp only [List.map_cons, List.nodup_cons] at hnd
      have hstep : lineStep acc (mkLineTr l)
          = .ok (acc ++ [(l.lname, l.meals.map expectedMeal)]) := by
        rw [lineStep_mkLineTr acc l hl, dictInsert_not_mem _ hfresh]
      rw [List.map_cons, foldE_cons_ok _ _ hstep,
        ih (acc ++ [(l.lname, l.meals.map expectedMeal)])
          (fun x hx => hwf x (List.mem_cons_of_mem _ hx)) hnd.2 ?_]
      · simp
      · intro x hx
        simp only [List.map_append, List.mem_append, List.map_cons,
          List.map_nil, List.mem_singleton, not_or]
        refine ⟨hdisj x (List.mem_cons_of_mem _ hx), ?_⟩
        intro he
        exact hnd.1 (he ▸ List.mem_map.mpr ⟨x, hx, rfl⟩)

theorem buildLines_mkLineTrs (d : CanteenDesc) (hwf : WFCanteen d) :
    buildLines (d.lines.map mkLineTr) = .ok (expectedCanteen d) := by
  rw [buildLines, foldE_lineStep d.lines [] hwf.2.2 hwf.2.1 (by intro x hx; simp)]
  simp [expectedCanteen]

theorem attrId_mkFragmentDiv (d : CanteenDesc) :
    (mkFragmentDiv d).attr? "id"
      = some ("fragment-c" ++ String.singleton d.idxc ++ "-1") := rfl

theorem idNeg3_fragId (c : Char) :
    ("fragment-c" ++ String.singleton c ++ "-1").data.reverse.get? 2 = some c := by
  show (("fragment-c".data ++ [c]) ++ ['-', '1']).reverse.get? 2 = some c
  rw [List.reverse_append, List.reverse_append]
  simp

/-- The fragment loop reads a fixture fragment into its line dict, stored
under the canteen name resolved through the canteen dict. -/
theorem fragmentStep_mkFragmentDiv (canteens : List (Char × String))
    (mensen : Snapshot) (d : CanteenDesc) (hwf : WFCanteen d)
    (hc : dictGet? canteens d.idxc = some d.cname) :
    fragmentStep canteens mensen (mkFragmentDiv d)
      = .ok (dictInsert mensen d.cname (expectedCanteen d)) := by
  simp only [fragmentStep, findAll_lineTrs, buildLines_mkLineTrs d hwf,
    attrId_mkFragmentDiv, idNeg3_fragId, hc]

/-! ### Evaluating the parser on fixture canteen containers -/

theorem attrId_mkCanteenDiv (d : CanteenDesc) :
    (mkCanteenDiv d).attr? "id"
      = some ("canteen_place_" ++ String.singleton d.idxc) := rfl

theorem idLast_canteenId (c : Char) :
    ("canteen_place_" ++ String.singleton c).data.getLast? = some c := by
  show ("canteen_place_".data ++ [c]).getLast? = some c
  exact List.getLast?_concat _

theorem findAll_h1 (d : CanteenDesc) :
    (mkCanteenDiv d).findAll (fun n => n.isElem "h1")
      = [.elem "h1" [] [.textNode d.cname]] := by
  simp [mkCanteenDiv, Node.findAll]

theorem canteenStep_mkCanteenDiv (acc : List (Char × String)) (d : CanteenDesc) :
    canteenStep acc (mkCanteenDiv d) = .ok (dictInsert acc d.idxc d.cname) := by
  simp only [canteenStep, attrId_mkCanteenDiv, idLast_canteenId, findAll_h1]
  simp [text_elem_single]

theorem foldE_canteenStep (ds : List CanteenDesc) :
    ∀ acc : List (Char × String), (ds.map CanteenDesc.idxc).Nodup →
      (∀ d ∈ ds, d.idxc ∉ acc.map Prod.fst) →
      foldE canteenStep acc (ds.map mkCanteenDiv)
        = .ok (acc ++ ds.map fun d => (d.idxc, d.cname)) := by
  induction ds with
  | nil => intro acc _ _; simp
  | cons d rest ih =>
      intro acc hnd hdisj
      have hfresh := hdisj d (List.mem_cons_self d rest)
      simp only [List.map_cons, List.nodup_cons] at hnd
      have hstep : canteenStep acc (mkCanteenDiv d)
          = .ok (acc ++ [(d.idxc, d.cname)]) := by
        rw [canteenStep_mkCanteenDiv acc d, dictInsert_not_mem _ hfresh]
      rw [List.map_cons, foldE_cons_ok _ _ hstep,
        ih (acc ++ [(d.idxc, d.cname)]) hnd.2 ?_]
      · simp
      · intro x hx
        simp only [List.map_append, List.mem_append, List.map_cons,
          List.map_nil, List.mem_singleton, not_or]
        refine ⟨hdisj x (List.mem_cons_of_mem _ hx), ?_⟩
        intro he
        exact hnd.1 (he ▸ List.mem_map.mpr ⟨x, hx, rfl⟩)

theorem buildCanteens_mkCanteenDivs (ds : List CanteenDesc)
    (hnd : (ds.map CanteenDesc.idxc).Nodup) :
    buildCanteens (ds.map mkCanteenDiv)
      = .ok (ds.map fun d => (d.idxc, d.cname)) := by
  rw [buildCanteens, foldE_canteenStep ds [] hnd (by intro x hx; simp)]
  simp

/-! ### Evaluating the parser on a whole fixture page -/

theorem filter_descSelf_mkMealTr_isCanteenDiv (m : MealDesc) :
    (descendantsSelf (mkMealTr m)).filter isCanteenDiv = [] := by
  have h1 : (List.map mkImg m.icons).filter isCanteenDiv = [] :=
    filter_map_nil _ _ _ fun x => rfl
  have h2 := descendantsList_map_mkImg m.icons
  cases hn : m.note with
  | none =>
      simp [mkMealTr, mealTd, hn, noteNodes, descendantsList_append, h1, h2,
        List.filter_append]
  | some s =>
      simp [mkMealTr, mealTd, hn, noteNodes, descendantsList_append, h1, h2,
        List.filter_append]

theorem filter_descSelf_mkMealTr_isFragmentDiv (m : MealDesc) :
    (descendantsSelf (mkMealTr m)).filter isFragmentDiv = [] := by
  have h1 : (List.map mkImg m.icons).filter isFragmentDiv = [] :=
    filter_map_nil _ _ _ fun x => rfl
  have h2 := descendantsList_map_mkImg m.icons
  cases hn : m.note with
  | none =>
      simp [mkMealTr, mealTd, hn, noteNodes, descendantsList_append, h1, h2,
        List.filter_append]
  | some s =>
      simp [mkMealTr, mealTd, hn, noteNodes, descendantsList_append, h1, h2,
        List.filter_append]

theorem filter_descSelf_mkLineTr_isCanteenDiv (l : LineDesc) :
    (descendantsSelf (mkLineTr l)).filter isCanteenDiv = [] := by
  have h2 : (descendantsList (l.meals.map mkMealTr)).filter isCanteenDiv = [] :=
    filter_descList_map_nil _ _ _ fun m _ => filter_descSelf_mkMealTr_isCanteenDiv m
  simp [mkLineTr, mensatypeTd, descendantsList_append, h2, List.filter_append]

theorem filter_descSelf_mkLineTr_isFragmentDiv (l : LineDesc) :
    (descendantsSelf (mkLineTr l)).filter isFragmentDiv = [] := by
  have h2 : (descendantsList (l.meals.map mkMealTr)).filter isFragmentDiv = [] :=
    filter_descList_map_nil _ _ _ fun m _ => filter_descSelf_mkMealTr_isFragmentDiv m
  simp [mkLineTr, mensatypeTd, descendantsList_append, h2, List.filter_append]

theorem filter_descSelf_mkFragmentDiv_isCanteenDiv (d : CanteenDesc) :
    (descendantsSelf (mkFragmentDiv d)).filter isCanteenDiv = [] := by
  have h2 : (descendantsList (d.lines.map mkLineTr)).filter isCanteenDiv = [] :=
    filter_descList_map_nil _ _ _ fun l _ => filter_descSelf_mkLineTr_isCanteenDiv l
  simp [mkFragmentDiv, descendantsList_append, h2, List.filter_append]

theorem filter_descSelf_mkCanteenDiv_isFragmentDiv (d : CanteenDesc) :
    (descendantsSelf (mkCanteenDiv d)).filter isFragmentDiv = [] := by
  simp [mkCanteenDiv]

theorem filter_descSelf_mkCanteenDiv_isCanteenDiv (d : CanteenDesc)
    (hd : d.idxc.isDigit = true) :
    (descendantsSelf (mkCanteenDiv d)).filter isCanteenDiv = [mkCanteenDiv d] := by
  simp [mkCanteenDiv, isCanteenDiv_canteenId, hd]

theorem filter_descSelf_mkFragmentDiv_isFragmentDiv (d : CanteenDesc)
    (hd : d.idxc.isDigit = true) :
    (descendantsSelf (mkFragmentDiv d)).filter isFragmentDiv = [mkFragmentDiv d] := by
  have h2 : (descendantsList (d.lines.map mkLineTr)).filter isFragmentDiv = [] :=
    filter_descList_map_nil _ _ _ fun l _ => filter_descSelf_mkLineTr_isFragmentDiv l
  simp [mkFragmentDiv, descendantsList_append, h2, List.filter_append,
    isFragmentDiv_fragId, hd]

theorem findAll_canteenDivs (ds : List CanteenDesc)
    (h : ∀ d ∈ ds, d.idxc.isDigit = true) :
    (mkPage ds).findAll isCanteenDiv = ds.map mkCanteenDiv := by
  have hA : (descendantsList (ds.map mkCanteenDiv)).filter isCanteenDiv
      = ds.map mkCanteenDiv :=
    filter_descList_map_self _ _ _ fun d hd =>
      filter_descSelf_mkCanteenDiv_isCanteenDiv d (h d hd)
  have hB : (descendantsList (ds.map mkFragmentDiv)).filter isCanteenDiv = [] :=
    filter_descList_map_nil _ _ _ fun d _ =>
      filter_descSelf_mkFragmentDiv_isCanteenDiv d
  simp [mkPage, Node.findAll, descendantsList_append, List.filter_append, hA, hB]

theorem findAll_fragmentDivs (ds : List CanteenDesc)
    (h : ∀ d ∈ ds, d.idxc.isDigit = true) :
    (mkPage ds).findAll isFragmentDiv = ds.map mkFragmentDiv := by
  have hA : (descendantsList (ds.map mkCanteenDiv)).filter isFragmentDiv = [] :=
    filter_descList_map_nil _ _ _ fun d _ =>
      filter_descSelf_mkCanteenDiv_isFragmentDiv d
  have hB : (descendantsList (ds.map mkFragmentDiv)).filter isFragmentDiv
      = ds.map mkFragmentDiv :=
    filter_descList_map_self _ _ _ fun d hd =>
      filter_descSelf_mkFragmentDiv_isFragmentDiv d (h d hd)
  simp [mkPage, Node.findAll, descendantsList_append, List.filter_append, hA, hB]

theorem foldE_fragmentStep (canteens : List (Char × String)) :
    ∀ (ds : List CanteenDesc) (acc : Snapshot), (∀ d ∈ ds, WFCanteen d) →
      (∀ d ∈ ds, dictGet? canteens d.idxc = some d.cname) →
      (ds.map CanteenDesc.cname).Nodup →
      (∀ d ∈ ds, d.cname ∉ acc.map Prod.fst) →
      foldE (fragmentStep canteens) acc (ds.map mkFragmentDiv)
        = .ok (acc ++ ds.map fun d => (d.cname, expectedCanteen d)) := by
  intro ds
  induction ds with
  | nil => intro acc _ _ _ _; simp
  | cons d rest ih =>
      intro acc hwf hget hnd hdisj
      have hfresh := hdisj d (List.mem_cons_self d rest)
      simp only [List.map_cons, List.nodup_cons] at hnd
      have hstep : fragmentStep canteens acc (mkFragmentDiv d)
          = .ok (acc ++ [(d.cname, expectedCanteen d)]) := by
        rw [fragmentStep_mkFragmentDiv canteens acc d
            (hwf d (List.mem_cons_self d rest))
            (hget d (List.mem_cons_self d rest)),
          dictInsert_not_mem _ hfresh]
      rw [List.map_cons, foldE_cons_ok _ _ hstep,
        ih (acc ++ [(d.cname, expectedCanteen d)])
          (fun x hx => hwf x (List.mem_cons_of_mem _ hx))
          (fun x hx => hget x (List.mem_cons_of_mem _ hx)) hnd.2 ?_]
      · simp
      · intro x hx
        simp only [List.map_append, List.mem_append, List.map_cons,
          List.map_nil, List.mem_singleton, not_or]
        refine ⟨hdisj x (List.mem_cons_of_mem _ hx), ?_⟩
        intro he
        exact hnd.1 (he ▸ List.mem_map.mpr ⟨x, hx, rfl⟩)

/-- The canteen dict built from the canteen containers resolves every
described index to its display name. -/
theorem canteensGet (ds : List CanteenDesc)
    (hnd : (ds.map CanteenDesc.idxc).Nodup) (d : CanteenDesc) (hd : d ∈ ds) :
    dictGet? (ds.map fun d => (d.idxc, d.cname)) d.idxc = some d.cname := by
  apply dictGet?_of_mem_nodup
  · rw [List.map_map]
    exact hnd
  · exact List.mem_map.mpr ⟨d, hd, rfl⟩

/-- `parse_sw_site` reads a well-formed fixture page into exactly the
described snapshot. -/
theorem parse_mkPage (ds : List CanteenDesc) (h : WFPage ds) :
    parse_sw_site (mkPage ds) = .ok (expectedSnapshot ds) := by
  obtain ⟨hnd_idx, hnd_name, hwf⟩ := h
  have hdig : ∀ d ∈ ds, d.idxc.isDigit = true := fun d hd => (hwf d hd).1
  have hlookup : ∀ d ∈ ds,
      dictGet? (ds.map fun d => (d.idxc, d.cname)) d.idxc = some d.cname :=
    fun d hd => canteensGet ds hnd_idx d hd
  simp only [parse_sw_site, findAll_canteenDivs ds hdig,
    buildCanteens_mkCanteenDivs ds hnd_idx, findAll_fragmentDivs ds hdig]
  rw [foldE_fragmentStep _ ds [] hwf hlookup hnd_name (by intro x hx; simp)]
  simp [expectedSnapshot]

/-! ### The tag vocabulary invariant on arbitrary input -/

/-- Every tag of the meal is a value of the `ICON_TAGS` table. -/
def TagsOK (m : Meal) : Prop := ∀ t ∈ m.tags, t ∈ ICON_TAGS.map Prod.snd

/-- Every meal of every line satisfies `TagsOK`. -/
def CanteenTagsOK (c : Canteen) : Prop := ∀ p ∈ c, ∀ m ∈ p.2, TagsOK m

/-- Every canteen of the snapshot satisfies `CanteenTagsOK`. -/
def SnapshotTagsOK (s : Snapshot) : Prop := ∀ p ∈ s, CanteenTagsOK p.2

theorem truthy_eq_some {o : Option String} {t : String}
    (h : truthy o = some t) : o = some t := by
  cases o with
  | none => simp [truthy] at h
  | some s =>
      simp only [truthy] at h
      by_cases hs : s = ""
      · rw [if_pos hs] at h
        cases h
      · rw [if_neg hs] at h
        exact h

theorem iconLookup_ok_mem {img : Node} {o : Option String} {t : String}
    (h : iconLookup img = .ok o) (ht : o = some t) :
    t ∈ ICON_TAGS.map Prod.snd := by
  unfold iconLookup at h
  cases hsrc : img.attr? "src" with
  | none =>
      rw [hsrc] at h
      cases h
  | some src =>
      rw [hsrc] at h
      injection h with h
      subst h
      exact dictGet?_mem_values ht

theorem parseMeal_ok_tags {mtr : Node} {m : Meal}
    (h : parseMeal mtr = .ok m) : TagsOK m := by
  unfold parseMeal at h
  cases h1 : mtr.find? isFirstTd with
  | none => rw [h1] at h; cases h
  | some td =>
      rw [h1] at h
      cases h2 : mapE iconLookup (mtr.findAll isMealIcon) with
      | error e => rw [h2] at h; cases h
      | ok tagnames =>
          rw [h2] at h
          cases h3 : mtr.find? fun n => n.isElem "b" with
          | none => rw [h3] at h; cases h
          | some bEl =>
              rw [h3] at h
              cases h4 : mtr.find? isPriceSpan with
              | none => rw [h4] at h; cases h
              | some priceEl =>
                  rw [h4] at h
                  injection h with h
                  subst h
                  intro t ht
                  simp only [List.mem_filterMap] at ht
                  obtain ⟨o, ho, htr⟩ := ht
                  obtain ⟨img, -, hlook⟩ := exists_of_mapE_ok h2 o ho
                  exact iconLookup_ok_mem hlook (truthy_eq_some htr)

theorem lineStep_tags {lines : Canteen} {ltr : Node} {lines' : Canteen}
    (h : lineStep lines ltr = .ok lines') (hl : CanteenTagsOK lines) :
    CanteenTagsOK lines' := by
  unfold lineStep at h
  cases h1 : ltr.find? isMensatypeTd with
  | none =>
      simp only [h1] at h
      injection h with h
      subst h
      exact hl
  | some nametd =>
      simp only [h1] at h
      cases h2 : nametd.children with
      | nil => simp only [h2] at h; cases h
      | cons c0 cs =>
          simp only [h2] at h
          cases h3 : mapE parseMeal (ltr.findAll isMealTr) with
          | error e => rw [h3] at h; cases h
          | ok meals =>
              rw [h3] at h
              injection h with h
              subst h
              intro p hp m hm
              rcases mem_of_mem_dictInsert hp with hp | hp
              · subst hp
                obtain ⟨mtr, -, hpm⟩ := exists_of_mapE_ok h3 m hm
                exact parseMeal_ok_tags hpm
              · exact hl p hp m hm

theorem buildLines_tags {ltrs : List Node} {c : Canteen}
    (h : buildLines ltrs = .ok c) : CanteenTagsOK c := by
  refine foldE_invariant CanteenTagsOK ?_ ?_ h
  · intro p hp
    simp at hp
  · intro s a _ hs s' hstep
    exact lineStep_tags hstep hs

theorem fragmentStep_tags {canteens : List (Char × String)} {mensen : Snapshot}
    {div : Node} {mensen' : Snapshot}
    (h : fragmentStep canteens mensen div = .ok mensen')
    (hm : SnapshotTagsOK mensen) : SnapshotTagsOK mensen' := by
  unfold fragmentStep at h
  cases h1 : buildLines (div.findAll isPlainTr) with
  | error e => simp only [h1] at h; cases h
  | ok lines =>
      simp only [h1] at h
      cases h2 : div.attr? "id" with
      | none => simp only [h2] at h; cases h
      | some idStr =>
          simp only [h2] at h
          cases h3 : idStr.data.reverse.get? 2 with
          | none => simp only [h3] at h; cases h
          | some key =>
              simp only [h3] at h
              cases h4 : dictGet? canteens key with
              | none => simp only [h4] at h; cases h
              | some cname =>
                  simp only [h4] at h
                  injection h with h
                  subst h
                  intro p hp
                  rcases mem_of_mem_dictInsert hp with hp | hp
                  · subst hp
                    exact buildLines_tags h1
                  · exact hm p hp

/-- On any input the parser accepts, every tag of every meal is a value of
the fixed icon table. -/
theorem parse_sw_site_tags {soup : Node} {snap : Snapshot}
    (h : parse_sw_site soup = .ok snap) : SnapshotTagsOK snap := by
  unfold parse_sw_site at h
  cases h1 : buildCanteens (soup.findAll isCanteenDiv) with
  | error e => rw [h1] at h; cases h
  | ok canteens =>
      rw [h1] at h
      refine foldE_invariant SnapshotTagsOK ?_ ?_ h
      · intro p hp
        simp at hp
      · intro s a _ hs s' hstep
        exact fragmentStep_tags hstep hs

/-! ### Concrete fixture documents for counterexamples and witnesses -/

@[simp] theorem dictKeys_eq {α β : Type} (d : List (α × β)) :
    dictKeys d = d.map Prod.fst := rfl

/-- A minimal page whose parse yields the single canteen `Mensa New` with
no lines. -/
def pageNew : Node :=
  .elem "html" []
    [.elem "div" [("id", "canteen_place_1")] [.elem "h1" [] [.textNode "Mensa New"]],
     .elem "div" [("id", "fragment-c1-1")] [.elem "table" [] []]]

/-- A page whose meal row has no price span, so its parse raises. -/
def pageNoPrice : Node :=
  .elem "html" []
    [.elem "div" [("id", "canteen_place_1")] [.elem "h1" [] [.textNode "Mensa New"]],
     .elem "div" [("id", "fragment-c1-1")]
       [.elem "table" []
         [.elem "tr" []
           [.elem "td" [("class", "mensatype")] [.textNode "Linie 1"],
            .elem "td" [("class", "mensadata")]
              [.elem "table" []
                [.elem "tr" [("class", "mt-1")]
                  [.elem "td" [("class", "first")]
                    [.elem "b" [] [.textNode "Pasta"]]]]]]]]]

/-- A full demo page: one canteen, one line, one meal with a note and a
recognized, an unrecognized, and another recognized icon. -/
def pageFull : Node :=
  .elem "html" []
    [.elem "div" [("id", "canteen_place_1")] [.elem "h1" [] [.textNode "Mensa New"]],
     .elem "div" [("id", "fragment-c1-1")]
       [.elem "table" []
         [.elem "tr" []
           [.elem "td" [("class", "mensatype")] [.textNode "Linie 1"],
            .elem "td" [("class", "mensadata")]
              [.elem "table" []
                [.elem "tr" [("class", "mt-1")]
                  [.elem "td" [("class", "first")]
                    [.elem "b" [] [.textNode "Pasta"],
                     .elem "span" [] [.textNode "mit Sauce"],
                     .elem "span" [("class", "bgp price_1")] [.textNode "2,60"],
                     .elem "img" [("class", "mealicon_2"),
                       ("src", "https://sw-ka.de/icons/vegan_2.gif")] [],
                     .elem "img" [("class", "mealicon_2"),
                       ("src", "unknown.gif")] [],
                     .elem "img" [("class", "mealicon_2"),
                       ("src", "bio_2.gif")] []]]]]]]]]

/-- The meal `pageFull` parses to. -/
def mealFull : Meal :=
  { name := "Pasta", note := "mit Sauce", price := "2,60",
    tags := ["vegan", "bio"] }

/-- The snapshot `pageFull` parses to. -/
def snapFull : Snapshot := [("Mensa New", [("Linie 1", [mealFull])])]

/-! ### Claim C1 -/

/-- Claim C1 counterexample: a successful cycle whose parse yields only
`Mensa New` leaves the previously cached canteen `Mensa Old` in the
snapshot — `DATA.update(data)` merges instead of replacing wholesale, so
a canteen key from a previous snapshot survives although it is absent
from the newly parsed data. -/
theorem claim1_cex :
    parse_sw_site pageNew = .ok [("Mensa New", [])]
    ∧ updateStep ⟨200, .ok pageNew, "T1"⟩ ⟨[("Mensa Old", [])], none⟩
        = .ok ⟨[("Mensa Old", []), ("Mensa New", [])], some "T1"⟩
    ∧ "Mensa Old" ∉ dictKeys [(("Mensa New" : String), ([] : Canteen))] := by
  refine ⟨by decide, by decide, by decide⟩

/-- Claim C1 (amended): a successful fetch+parse cycle merges the parsed
snapshot into the cache per canteen key: every parsed canteen overwrites
the cached entry wholesale and the key set becomes the union, but cached
canteen keys absent from the parse persist with their old value — the
snapshot is not replaced wholesale. -/
theorem claim1_update_merges (st : CacheState) (inp : CycleInput) (soup : Node)
    (snap : Snapshot) (hstatus : inp.status < 300) (hdec : inp.decoded = .ok soup)
    (hparse : parse_sw_site soup = .ok snap) :
    updateStep inp st
      = .ok { data := dictUpdate st.data snap, last_update := some inp.now }
    ∧ (∀ k, k ∈ dictKeys (dictUpdate st.data snap)
        ↔ k ∈ dictKeys st.data ∨ k ∈ dictKeys snap)
    ∧ (∀ k, k ∉ dictKeys snap →
        dictGet? (dictUpdate st.data snap) k = dictGet? st.data k)
    ∧ ((dictKeys snap).Nodup → ∀ k c, dictGet? snap k = some c →
        dictGet? (dictUpdate st.data snap) k = some c) := by
  refine ⟨?_, ?_, ?_, ?_⟩
  · simp [updateStep, hstatus, hdec, hparse]
  · intro k
    exact mem_keys_dictUpdate snap st.data
  · intro k hk
    exact dictGet?_dictUpdate_not_mem snap st.data hk
  · intro hnd k c hkc
    exact dictGet?_dictUpdate_mem snap st.data hnd hkc

theorem claim1_update_merges_witness :
    updateStep ⟨200, .ok pageNew, "T1"⟩ ⟨[("Mensa Old", [])], none⟩
      = .ok { data := dictUpdate [("Mensa Old", [])] [("Mensa New", [])]
              last_update := some "T1" } :=
  (claim1_update_merges ⟨[("Mensa Old", [])], none⟩ ⟨200, .ok pageNew, "T1"⟩
    pageNew [("Mensa New", [])] (by decide) rfl (by decide)).1

/-! ### Claim C2 -/

/-- Claim C2 counterexample: the first scheduled tick's parse fails (a
meal row without a price span raises `AttributeError`), the exception
escapes `update`, the background task dies, and the second scheduled tick
never runs — only 1 of the 2 scheduled ticks executes, so the scheduler
does crash and does not wake at the next scheduled tick. -/
theorem claim2_cex :
    updateStep ⟨200, .ok pageNoPrice, "T1"⟩ initState = .error .attributeError
    ∧ ticksRun [⟨200, .ok pageNoPrice, "T1"⟩, ⟨200, .ok pageNew, "T2"⟩] initState
        = 1 := by
  refine ⟨by decide, by decide⟩

/-- Claim C2 (amended): only a fetch failure reported as a non-success
HTTP status (≥ 300) is skipped gracefully — `update` returns without
raising, the state is untouched, no retry happens before the next tick and
the next scheduled tick still runs; but when `update` raises (decode or
parse failure), the scheduler task terminates and no later tick runs. -/
theorem claim2_scheduler (c : CycleInput) (cs : List CycleInput)
    (st : CacheState) :
    (300 ≤ c.status →
      updateStep c st = .ok st ∧ ticksRun (c :: cs) st = 1 + ticksRun cs st)
    ∧ (∀ e, updateStep c st = .error e → ticksRun (c :: cs) st = 1) := by
  constructor
  · intro hs
    have hlt : ¬ c.status < 300 := by omega
    have hu : updateStep c st = .ok st := by simp [updateStep, hlt]
    exact ⟨hu, by simp [ticksRun, hu]⟩
  · intro e he
    simp [ticksRun, he]

theorem claim2_scheduler_witness :
    updateStep ⟨500, .ok pageNew, "T1"⟩ initState = .ok initState
    ∧ ticksRun [⟨500, .ok pageNew, "T1"⟩, ⟨200, .ok pageNew, "T2"⟩] initState
        = 1 + ticksRun [⟨200, .ok pageNew, "T2"⟩] initState :=
  (claim2_scheduler ⟨500, .ok pageNew, "T1"⟩ [⟨200, .ok pageNew, "T2"⟩]
    initState).1 (by decide)

/-! ### Claim C3 -/

/-- Claim C3: a refresh cycle with a non-success HTTP status (≥ 300)
returns without raising and leaves `DATA` and `META_DATA` exactly as they
were; a cycle whose parse fails raises before any mutation, so the module
state after the attempted cycle is also exactly the previous one. -/
theorem claim3_failed_cycle (st : CacheState) (inp : CycleInput) :
    (300 ≤ inp.status → updateStep inp st = .ok st ∧ runUpdate inp st = st)
    ∧ (∀ soup e, inp.status < 300 → inp.decoded = .ok soup →
        parse_sw_site soup = .error e →
        updateStep inp st = .error e ∧ runUpdate inp st = st) := by
  constructor
  · intro hs
    have hlt : ¬ inp.status < 300 := by omega
    have hu : updateStep inp st = .ok st := by simp [updateStep, hlt]
    exact ⟨hu, by simp [runUpdate, hu]⟩
  · intro soup e hlt hdec hparse
    have hu : updateStep inp st = .error e := by
      simp [updateStep, hlt, hdec, hparse]
    exact ⟨hu, by simp [runUpdate, hu]⟩

theorem claim3_failed_cycle_witness :
    (updateStep ⟨500, .ok pageNew, "T"⟩ ⟨[("Mensa Old", [])], some "T0"⟩
      = .ok ⟨[("Mensa Old", [])], some "T0"⟩)
    ∧ runUpdate ⟨200, .ok pageNoPrice, "T"⟩ ⟨[("Mensa Old", [])], some "T0"⟩
      = ⟨[("Mensa Old", [])], some "T0"⟩ :=
  ⟨((claim3_failed_cycle ⟨[("Mensa Old", [])], some "T0"⟩
      ⟨500, .ok pageNew, "T"⟩).1 (by decide)).1,
   ((claim3_failed_cycle ⟨[("Mensa Old", [])], some "T0"⟩
      ⟨200, .ok pageNoPrice, "T"⟩).2 pageNoPrice .attributeError (by decide)
      rfl (by decide)).2⟩

/-! ### Claim C4 -/

/-- Claim C4 counterexample: before the first successful scrape the
snapshot is empty; the query `"A"` uniquely matches the short name
`Adenauerring`, so `get_mensa` evaluates `DATA['Mensa Am Adenauerring']`
and raises `KeyError`, which `req2resp` (catching only `ValueError`) does
not catch — the lookup failure reaches the HTTP caller as a generic
uncaught exception, not a typed condition. -/
theorem claim4_cex : req2resp_mensa "A" [] = .uncaught .keyError := by decide

/-- Claim C4 (amended): resolver failures from zero or multiple short-name
matches surface as the typed `ValueError` conditions (`NotFound` /
`Ambiguous` messages) caught by `req2resp`; but a uniquely matched short
name whose canonical canteen is absent from the cached snapshot — e.g. any
query before the first successful scrape — raises `KeyError`, which
`req2resp` does not catch. -/
theorem claim4_resolver_errors (q : String) (data : Snapshot) :
    ((SHORTNAMES.filter fun p => pyStartsWith p.1 q).map Prod.snd = [] →
      req2resp_mensa q data = .typedError "Unkown Mensa")
    ∧ (2 ≤ ((SHORTNAMES.filter fun p => pyStartsWith p.1 q).map Prod.snd).length →
      req2resp_mensa q data = .typedError "Ambiguous short name")
    ∧ (∀ m, (SHORTNAMES.filter fun p => pyStartsWith p.1 q).map Prod.snd = [m] →
        (∀ c, dictGet? data m = some c → req2resp_mensa q data = .ok c)
        ∧ (dictGet? data m = none →
            req2resp_mensa q data = .uncaught .keyError)) := by
  refine ⟨?_, ?_, ?_⟩
  · intro hnil
    simp [req2resp_mensa, get_mensa, hnil]
  · intro hlen
    rcases hc : (SHORTNAMES.filter fun p => pyStartsWith p.1 q).map Prod.snd with
      _ | ⟨m, _ | ⟨m', rest⟩⟩
    · rw [hc] at hlen; simp at hlen
    · rw [hc] at hlen; simp at hlen
    · simp [req2resp_mensa, get_mensa, hc]
  · intro m hone
    constructor
    · intro c hget
      simp [req2resp_mensa, get_mensa, hone, hget]
    · intro hget
      simp [req2resp_mensa, get_mensa, hone, hget]

theorem claim4_resolver_errors_witness :
    req2resp_mensa "A" [] = .uncaught .keyError
    ∧ req2resp_mensa "X" [] = .typedError "Unkown Mensa"
    ∧ req2resp_mensa "" [] = .typedError "Ambiguous short name" :=
  ⟨((claim4_resolver_errors "A" []).2.2 "Mensa Am Adenauerring" (by decide)).2
      (by decide),
   (claim4_resolver_errors "X" []).1 (by decide),
   (claim4_resolver_errors "" []).2.1 (by decide)⟩

/-! ### Claim C5 -/

/-- Claim C5: `get_mensa` computes its candidates as exactly the
`SHORTNAMES` keys that start with the query (case-sensitive python
`startswith`, no normalization): zero candidates raise the `NotFound`
`ValueError`, more than one raise the `Ambiguous` `ValueError`, exactly
one resolves through the table to its canonical name and returns that
key's canteen from the given snapshot; the empty query matches every key
and is ambiguous because `SHORTNAMES` has more than one entry. -/
theorem claim5_resolve_canteen (q : String) (data : Snapshot) :
    ((SHORTNAMES.map Prod.fst).filter (fun s => pyStartsWith s q) = [] →
      get_mensa q data = .error (.valueError "Unkown Mensa"))
    ∧ (2 ≤ ((SHORTNAMES.map Prod.fst).filter (fun s => pyStartsWith s q)).length →
      get_mensa q data = .error (.valueError "Ambiguous short name"))
    ∧ (∀ k, (SHORTNAMES.map Prod.fst).filter (fun s => pyStartsWith s q) = [k] →
        ∃ v, dictGet? SHORTNAMES k = some v ∧
          ∀ c, dictGet? data v = some c → get_mensa q data = .ok c)
    ∧ get_mensa "" data = .error (.valueError "Ambiguous short name") := by
  have hcomm : (SHORTNAMES.map Prod.fst).filter (fun s => pyStartsWith s q)
      = (SHORTNAMES.filter fun p => pyStartsWith p.1 q).map Prod.fst :=
    List.filter_map Prod.fst SHORTNAMES
  refine ⟨?_, ?_, ?_, ?_⟩
  · intro hnil
    rw [hcomm] at hnil
    rw [List.map_eq_nil_iff] at hnil
    simp [get_mensa, hnil]
  · intro hlen
    rw [hcomm, List.length_map] at hlen
    rcases hc : SHORTNAMES.filter fun p => pyStartsWith p.1 q with
      _ | ⟨p1, _ | ⟨p2, rest⟩⟩
    · rw [hc] at hlen; simp at hlen
    · rw [hc] at hlen; simp at hlen
    · simp [get_mensa, hc]
  · intro k hone
    rw [hcomm] at hone
    rcases hc : SHORTNAMES.filter fun p => pyStartsWith p.1 q with
      _ | ⟨p1, _ | ⟨p2, rest⟩⟩
    · rw [hc] at hone; simp at hone
    · rw [hc] at hone
      simp only [List.map_cons, List.map_nil] at hone
      injection hone with hk _
      refine ⟨p1.2, ?_, ?_⟩
      · subst hk
        refine dictGet?_of_mem_nodup (by decide) ?_
        have := List.mem_of_mem_filter (l := SHORTNAMES)
          (p := fun p => pyStartsWith p.1 q) (a := p1) (by rw [hc]; simp)
        simpa using this
      · intro c hget
        simp [get_mensa, hc, hget]
    · rw [hc] at hone; simp at hone
  · rfl

theorem claim5_resolve_canteen_witness :
    get_mensa "G" [("Mensa Schloss Gottesaue", [("Linie 1", [])])]
      = .ok [("Linie 1", [])]
    ∧ get_mensa "X" [] = .error (.valueError "Unkown Mensa")
    ∧ get_mensa "" [] = .error (.valueError "Ambiguous short name") := by
  refine ⟨?_, (claim5_resolve_canteen "X" []).1 (by decide),
    (claim5_resolve_canteen "" []).2.2.2⟩
  obtain ⟨v, hv, himp⟩ :=
    (claim5_resolve_canteen "G"
      [("Mensa Schloss Gottesaue", [("Linie 1", [])])]).2.2.1 "Gottesaue"
      (by decide)
  have hv' : v = "Mensa Schloss Gottesaue" := by
    have : dictGet? SHORTNAMES "Gottesaue" = some "Mensa Schloss Gottesaue" := by
      decide
    rw [this] at hv
    injection hv with hv
    exact hv.symm
  subst hv'
  exact himp [("Linie 1", [])] (by decide)

/-! ### Claim C6 -/

/-- Claim C6: for a line query against an already-resolved canteen,
`get_line` computes its candidates as exactly the canteen's line names
that end with the query (python `endswith`): zero candidates raise the
`NotFound` `ValueError`, more than one raise the `Ambiguous` `ValueError`,
and exactly one returns that line's meal list. -/
theorem claim6_resolve_line (mq lq : String) (data : Snapshot)
    (mdata : Canteen) (hm : get_mensa mq data = .ok mdata) :
    ((mdata.map Prod.fst).filter (fun l => pyEndsWith l lq) = [] →
      get_line mq lq data = .error (.valueError "Unkown Line"))
    ∧ (2 ≤ ((mdata.map Prod.fst).filter (fun l => pyEndsWith l lq)).length →
      get_line mq lq data = .error (.valueError "Ambiguous short name"))
    ∧ (∀ k, (mdata.map Prod.fst).filter (fun l => pyEndsWith l lq) = [k] →
        ∃ meals, dictGet? mdata k = some meals
          ∧ get_line mq lq data = .ok meals) := by
  refine ⟨?_, ?_, ?_⟩
  · intro hnil
    simp [get_line, hm, hnil]
  · intro hlen
    rcases hc : (mdata.map Prod.fst).filter (fun l => pyEndsWith l lq) with
      _ | ⟨k, _ | ⟨k', rest⟩⟩
    · rw [hc] at hlen; simp at hlen
    · rw [hc] at hlen; simp at hlen
    · simp [get_line, hm, hc]
  · intro k hone
    have hkmem : k ∈ mdata.map Prod.fst := by
      have : k ∈ (mdata.map Prod.fst).filter (fun l => pyEndsWith l lq) := by
        rw [hone]; simp
      exact List.mem_of_mem_filter this
    obtain ⟨meals, hmeals⟩ := exists_dictGet?_of_mem_keys hkmem
    exact ⟨meals, hmeals, by simp [get_line, hm, hone, hmeals]⟩

theorem claim6_resolve_line_witness :
    get_line "A" "1" [("Mensa Am Adenauerring",
      [("Linie 1", []), ("Linie 2", [])])] = .ok [] := by
  obtain ⟨meals, hmeals, hres⟩ :=
    (claim6_resolve_line "A" "1"
      [("Mensa Am Adenauerring", [("Linie 1", []), ("Linie 2", [])])]
      [("Linie 1", []), ("Linie 2", [])] (by decide)).2.2 "Linie 1" (by decide)
  have : meals = [] := by
    have h : dictGet? [(("Linie 1" : String), ([] : Line)),
        ("Linie 2", [])] "Linie 1" = some [] := by decide
    rw [h] at hmeals
    injection hmeals with h'
    exact h'.symm
  subst this
  exact hres

/-! ### Claim C7 -/

/-- Lookup into the expected snapshot for a described canteen. -/
theorem expectedSnapshot_get (ds : List CanteenDesc)
    (hnd : (ds.map CanteenDesc.cname).Nodup) (d : CanteenDesc) (hd : d ∈ ds) :
    dictGet? (expectedSnapshot ds) d.cname = some (expectedCanteen d) := by
  apply dictGet?_of_mem_nodup
  · rw [expectedSnapshot, List.map_map]
    exact hnd
  · exact List.mem_map.mpr ⟨d, hd, rfl⟩

/-- Lookup into an expected canteen for a described line. -/
theorem expectedCanteen_get (d : CanteenDesc)
    (hnd : (d.lines.map LineDesc.lname).Nodup) (l : LineDesc) (hl : l ∈ d.lines) :
    dictGet? (expectedCanteen d) l.lname = some (l.meals.map expectedMeal) := by
  apply dictGet?_of_mem_nodup
  · rw [expectedCanteen, List.map_map]
    exact hnd
  · exact List.mem_map.mpr ⟨l, hl, rfl⟩

/-- Claim C7: parsing a well-formed fixture page with `N` canteen
containers (each with its matching menu fragment) yields a snapshot with
exactly `N` canteen keys; each described canteen's lines appear under its
name in source order, and a line with `M` described meal sub-rows holds
exactly `M` meals in source order. -/
theorem claim7_parse_fixture (ds : List CanteenDesc) (h : WFPage ds) :
    parse_sw_site (mkPage ds) = .ok (expectedSnapshot ds)
    ∧ (expectedSnapshot ds).length = ds.length
    ∧ ∀ d ∈ ds, dictGet? (expectedSnapshot ds) d.cname = some (expectedCanteen d)
      ∧ expectedCanteen d = d.lines.map (fun l => (l.lname, l.meals.map expectedMeal))
      ∧ ∀ l ∈ d.lines,
          dictGet? (expectedCanteen d) l.lname = some (l.meals.map expectedMeal)
          ∧ (l.meals.map expectedMeal).length = l.meals.length := by
  refine ⟨parse_mkPage ds h, by simp [expectedSnapshot], ?_⟩
  intro d hd
  refine ⟨expectedSnapshot_get ds h.2.1 d hd, rfl, ?_⟩
  intro l hl
  exact ⟨expectedCanteen_get d ((h.2.2 d hd).2.1) l hl, by simp⟩

/-- The two-canteen fixture description used as the C7 witness. -/
def demoDescs : List CanteenDesc :=
  [{ idxc := '1', cname := "Mensa A",
     lines := [{ lname := "Linie 1",
                 meals := [{ mtc := '0', mname := "Pasta", note := some "mit Sauce",
                             price := "2,60", icons := ["vegan_2.gif"] },
                           { mtc := '1', mname := "Burger", note := none,
                             price := "3,10", icons := ["r_2.gif", "x.gif"] },
                           { mtc := '2', mname := "Salat", note := none,
                             price := "1,50", icons := [] }] }] },
   { idxc := '2', cname := "Mensa B", lines := [] }]

theorem claim7_parse_fixture_witness :
    parse_sw_site (mkPage demoDescs) = .ok (expectedSnapshot demoDescs)
    ∧ (expectedSnapshot demoDescs).length = 2 :=
  ⟨(claim7_parse_fixture demoDescs
      (by unfold WFPage WFCanteen WFLine WFMeal; decide)).1,
   (claim7_parse_fixture demoDescs
      (by unfold WFPage WFCanteen WFLine WFMeal; decide)).2.1⟩

/-! ### Claim C8 -/

/-- Claim C8: a fixture meal sub-row parses without error; with no
class-less note span the resulting meal's note is the empty string; its
tags are, in source order, exactly the `ICON_TAGS` images of its icon
filenames, unrecognized filenames (absent from the table) contributing
nothing. -/
theorem claim8_meal_row (m : MealDesc) (h : WFMeal m) :
    parseMeal (mkMealTr m) = .ok (expectedMeal m)
    ∧ (m.note = none → (expectedMeal m).note = "")
    ∧ (expectedMeal m).tags = m.icons.filterMap (fun i => dictGet? ICON_TAGS i)
    ∧ ((expectedMeal m).tags = [] ↔
        ∀ i ∈ m.icons, dictGet? ICON_TAGS i = none) := by
  refine ⟨parseMeal_mkMealTr m h, ?_, rfl, ?_⟩
  · intro hn
    simp [expectedMeal, hn]
  · simp [expectedMeal, List.filterMap_eq_nil_iff]

/-- The C8 witness meal: no note span, two recognized icons around an
unrecognized one. -/
def demoMeal : MealDesc :=
  { mtc := '1', mname := "Pasta", note := none, price := "2,60",
    icons := ["vegan_2.gif", "unknown.gif", "bio_2.gif"] }

theorem claim8_meal_row_witness :
    parseMeal (mkMealTr demoMeal)
      = .ok { name := "Pasta", note := "", price := "2,60",
              tags := ["vegan", "bio"] } :=
  (claim8_meal_row demoMeal (by unfold WFMeal; decide)).1

/-! ### Claim C10 -/

/-- Claim C10: on every input the parser accepts, every meal's tag list
contains only strings drawn from the six values of the fixed icon table —
`veggi`, `vegan`, `schwein`, `rind`, `fisch`, `bio` — never anything
else (and the truthiness filter keeps python `None` lookups out of the
list altogether). -/
theorem claim10_tags_closed (soup : Node) (snap : Snapshot)
    (h : parse_sw_site soup = .ok snap) :
    ∀ p ∈ snap, ∀ q ∈ p.2, ∀ m ∈ q.2, ∀ t ∈ m.tags,
      t ∈ ["veggi", "vegan", "schwein", "rind", "fisch", "bio"] := by
  intro p hp q hq m hm t ht
  have := parse_sw_site_tags h p hp q hq m hm t ht
  simpa [ICON_TAGS] using this

theorem claim10_tags_closed_witness :
    ("vegan" : String) ∈ ["veggi", "vegan", "schwein", "rind", "fisch", "bio"] :=
  claim10_tags_closed pageFull snapFull (by decide)
    ("Mensa New", [("Linie 1", [mealFull])]) (by decide)
    ("Linie 1", [mealFull]) (by decide) mealFull (by decide) "vegan" (by decide)

end Mensa
